import Mathlib

/-!
# CHIP-8 interpreter: shallow embedding of `main.go`

The Go struct `Chip8` is embedded as a record of naturals and of functions
`Nat → Nat` standing for the fixed-size arrays.  Machine integers are naturals
with explicit reduction modulo `2^8` or `2^16` wherever the Go code can wrap.
Every array access whose index is not bounded by construction carries the
bounds check that the Go runtime performs; a failed check, like the explicit
`panic("Unknown opcode")`, ends the execution with a panic that still exposes
the machine as it was at that moment (the receiver is a pointer, so the
mutations done before the panic stay visible).
-/

/-- Length of `memory     [4096]byte`. -/
def memorySize : Nat := 4096

/-- Length of `registers  [16]byte`. -/
def registerCount : Nat := 16

/-- Length of `stack      [16]uint16`. -/
def stackSize : Nat := 16

/-- Length of `keypad     [16]byte`. -/
def keypadSize : Nat := 16

/-- Length of `display    [64 * 32]byte`. -/
def displaySize : Nat := 64 * 32

/-- The Go struct `Chip8`. Arrays are functions on indices; only indices
below the array length are ever read or written. -/
structure Chip8 where
  memory : Nat → Nat
  registers : Nat → Nat
  index : Nat
  pc : Nat
  stack : Nat → Nat
  sp : Nat
  delayTimer : Nat
  soundTimer : Nat
  keypad : Nat → Nat
  display : Nat → Nat
  drawFlag : Bool

/-- The value ranges that the Go types impose on a machine: bytes are below
`2^8`, `uint16` values below `2^16`. -/
structure Chip8.WellFormed (c : Chip8) : Prop where
  memory_lt : ∀ i, i < memorySize → c.memory i < 256
  registers_lt : ∀ i, i < registerCount → c.registers i < 256
  index_lt : c.index < 65536
  pc_lt : c.pc < 65536
  stack_lt : ∀ i, i < stackSize → c.stack i < 65536
  sp_lt : c.sp < 256
  delayTimer_lt : c.delayTimer < 256
  soundTimer_lt : c.soundTimer < 256
  keypad_lt : ∀ i, i < keypadSize → c.keypad i < 256
  display_lt : ∀ i, i < displaySize → c.display i < 256

/-- The zero value `Chip8{}` of the Go struct. -/
def Chip8.zero : Chip8 where
  memory := fun _ => 0
  registers := fun _ => 0
  index := 0
  pc := 0
  stack := fun _ => 0
  sp := 0
  delayTimer := 0
  soundTimer := 0
  keypad := fun _ => 0
  display := fun _ => 0
  drawFlag := false

/-- Array assignment `a[i] = v`. -/
def setAt (a : Nat → Nat) (i v : Nat) : Nat → Nat :=
  fun j => if j = i then v else a j

/-- The two ways a call can panic. -/
inductive PanicKind where
  | unknownOpcode
  | indexOutOfRange
  deriving DecidableEq

/-- Outcome of running a method on a machine: it returns, or it panics; in
both cases the machine reached so far is kept. -/
inductive Exec where
  | ok (chip : Chip8)
  | panic (kind : PanicKind) (chip : Chip8)

/-- The machine an outcome carries. -/
def Exec.chip : Exec → Chip8
  | .ok c => c
  | .panic _ c => c

/-- Whether the call returned normally. -/
def Exec.isOk : Exec → Bool
  | .ok _ => true
  | .panic _ _ => false

/-- Whether the call ended in `panic("Unknown opcode")`. -/
def Exec.isUnknownOpcode : Exec → Bool
  | .panic .unknownOpcode _ => true
  | _ => false

/-- A `for` loop whose counter runs through `is`, stopping at the first
iteration that panics. -/
def forLoop (body : Nat → Chip8 → Exec) : List Nat → Chip8 → Exec
  | [], c => .ok c
  | i :: is, c =>
    match body i c with
    | .ok c1 => forLoop body is c1
    | .panic k c1 => .panic k c1

/-- The table `fonts`. -/
def fonts : List Nat := [
  0xF0, 0x90, 0x90, 0x90, 0xF0, -- 0
  0x20, 0x60, 0x20, 0x20, 0x70, -- 1
  0xF0, 0x10, 0xF0, 0x80, 0xF0, -- 2
  0xF0, 0x10, 0xF0, 0x10, 0xF0, -- 3
  0x90, 0x90, 0xF0, 0x10, 0x10, -- 4
  0xF0, 0x80, 0xF0, 0x10, 0xF0, -- 5
  0xF0, 0x80, 0xF0, 0x90, 0xF0, -- 6
  0xF0, 0x10, 0x20, 0x40, 0x40, -- 7
  0xF0, 0x90, 0xF0, 0x90, 0xF0, -- 8
  0xF0, 0x90, 0xF0, 0x10, 0xF0, -- 9
  0xF0, 0x90, 0xF0, 0x90, 0x90, -- A
  0xE0, 0x90, 0xE0, 0x90, 0xE0, -- B
  0xF0, 0x80, 0x80, 0x80, 0xF0, -- C
  0xE0, 0x90, 0x90, 0x90, 0xE0, -- D
  0xF0, 0x80, 0xF0, 0x80, 0xF0, -- E
  0xF0, 0x80, 0xF0, 0x80, 0x80] -- F

/-- The method `initialize`: copies `fonts` to `memory[0x50+i]`. The indices
`0x50 .. 0x9F` are inside the memory, so the loop cannot panic. -/
def Chip8.initialize (chip : Chip8) : Chip8 :=
  (List.range fonts.length).foldl
    (fun c i => { c with memory := setAt c.memory (0x50 + i) (fonts.getD i 0) }) chip

/-- Body of the inner loop of `drawSprite` for one `xline`. -/
def drawPixel (x y yline pixel xline : Nat) (chip : Chip8) : Exec :=
  if pixel &&& (0x80 >>> xline) ≠ 0 then
    let pos := x + xline + (y + yline) * 64
    if pos < displaySize then
      let regs1 := if chip.display pos = 1 then setAt chip.registers 0xF 1 else chip.registers
      .ok { chip with
        registers := regs1
        display := setAt chip.display pos (chip.display pos ^^^ 1) }
    else .panic .indexOutOfRange chip
  else .ok chip

/-- Body of the outer loop of `drawSprite` for one `yline`: the read of
`memory[index+uint16(yline)]`, then the inner loop over `xline < 8`. -/
def drawRow (x y yline : Nat) (chip : Chip8) : Exec :=
  let addr := (chip.index + yline) % 65536
  if addr < memorySize then
    forLoop (drawPixel x y yline (chip.memory addr)) (List.range 8) chip
  else .panic .indexOutOfRange chip

/-- The method `drawSprite(x, y, height byte)`. -/
def Chip8.drawSprite (chip : Chip8) (x y height : Nat) : Exec :=
  let c0 : Chip8 := { chip with registers := setAt chip.registers 0xF 0 }
  match forLoop (drawRow x y) (List.range height) c0 with
  | .ok c1 => .ok { c1 with drawFlag := true }
  | .panic k c1 => .panic k c1

/-- The method `fetchOpcode`: the two reads are bounds-checked, `pc+1` wraps
as a `uint16`. -/
def Chip8.fetchOpcode (chip : Chip8) : Option Nat :=
  if chip.pc < memorySize ∧ (chip.pc + 1) % 65536 < memorySize then
    some ((chip.memory chip.pc <<< 8) % 65536 ||| chip.memory ((chip.pc + 1) % 65536))
  else none

/-- Body of the loop of opcode FX55. -/
def storeRegister (i : Nat) (chip : Chip8) : Exec :=
  let addr := (chip.index + i) % 65536
  if addr < memorySize then
    .ok { chip with memory := setAt chip.memory addr (chip.registers i) }
  else .panic .indexOutOfRange chip

/-- Body of the loop of opcode FX65. -/
def loadRegister (i : Nat) (chip : Chip8) : Exec :=
  let addr := (chip.index + i) % 65536
  if addr < memorySize then
    .ok { chip with registers := setAt chip.registers i (chip.memory addr) }
  else .panic .indexOutOfRange chip

/-- Byte subtraction `a - b` with wrap-around. -/
def subByte (a b : Nat) : Nat := (a + 256 - b % 256) % 256

/-- The case `0x8000` of `decodeAndExecuteOpcode`. The register indices `x`
and `y` are nibbles, so the accesses `registers[x]`, `registers[y]` are always
in range. In the flag opcodes `regs1` is the register file after the store to
`registers[0xF]`, which the source performs before it computes the result. -/
def execAlu (chip : Chip8) (opcode : Nat) : Exec :=
  let x := (opcode &&& 0x0F00) >>> 8
  let y := (opcode &&& 0x00F0) >>> 4
  let sub := opcode &&& 0x000F
  if sub = 0x0000 then
    .ok { chip with registers := setAt chip.registers x (chip.registers y) }
  else if sub = 0x0001 then
    .ok { chip with registers := setAt chip.registers x (chip.registers x ||| chip.registers y) }
  else if sub = 0x0002 then
    .ok { chip with registers := setAt chip.registers x (chip.registers x &&& chip.registers y) }
  else if sub = 0x0003 then
    .ok { chip with registers := setAt chip.registers x (chip.registers x ^^^ chip.registers y) }
  else if sub = 0x0004 then
    let regs1 :=
      if chip.registers y > 0xFF - chip.registers x then setAt chip.registers 0xF 1
      else setAt chip.registers 0xF 0
    .ok { chip with registers := setAt regs1 x ((regs1 x + regs1 y) % 256) }
  else if sub = 0x0005 then
    let regs1 :=
      if chip.registers y > chip.registers x then setAt chip.registers 0xF 0
      else setAt chip.registers 0xF 1
    .ok { chip with registers := setAt regs1 x (subByte (regs1 x) (regs1 y)) }
  else if sub = 0x0006 then
    let regs1 := setAt chip.registers 0xF (chip.registers x &&& 0x1)
    .ok { chip with registers := setAt regs1 x (regs1 x >>> 1) }
  else if sub = 0x0007 then
    let regs1 :=
      if chip.registers x > chip.registers y then setAt chip.registers 0xF 0
      else setAt chip.registers 0xF 1
    .ok { chip with registers := setAt regs1 x (subByte (regs1 y) (regs1 x)) }
  else if sub = 0x000E then
    let regs1 := setAt chip.registers 0xF (chip.registers x >>> 7)
    .ok { chip with registers := setAt regs1 x ((regs1 x <<< 1) % 256) }
  else .panic .unknownOpcode chip

/-- The case `0xF000` of `decodeAndExecuteOpcode`. In FX33 the three stores
are checked one after the other, `index+1` and `index+2` wrapping as `uint16`;
`mem1` and `mem2` are the memory after the first and the second store. -/
def execMisc (chip : Chip8) (opcode : Nat) : Exec :=
  let x := (opcode &&& 0x0F00) >>> 8
  let sub := opcode &&& 0x00FF
  if sub = 0x0007 then
    .ok { chip with registers := setAt chip.registers x chip.delayTimer }
  else if sub = 0x000A then
    match (List.range keypadSize).find? (fun i => chip.keypad i != 0) with
    | some i => .ok { chip with registers := setAt chip.registers x (i % 256) }
    | none => .ok chip
  else if sub = 0x0015 then
    .ok { chip with delayTimer := chip.registers x }
  else if sub = 0x0018 then
    .ok { chip with soundTimer := chip.registers x }
  else if sub = 0x001E then
    .ok { chip with index := (chip.index + chip.registers x) % 65536 }
  else if sub = 0x0029 then
    .ok { chip with index := (chip.registers x * 0x5) % 65536 }
  else if sub = 0x0033 then
    if chip.index < memorySize then
      let mem1 := setAt chip.memory chip.index (chip.registers x / 100)
      if (chip.index + 1) % 65536 < memorySize then
        let mem2 := setAt mem1 ((chip.index + 1) % 65536) ((chip.registers x / 10) % 10)
        if (chip.index + 2) % 65536 < memorySize then
          .ok { chip with
            memory := setAt mem2 ((chip.index + 2) % 65536) ((chip.registers x % 100) % 10) }
        else .panic .indexOutOfRange { chip with memory := mem2 }
      else .panic .indexOutOfRange { chip with memory := mem1 }
    else .panic .indexOutOfRange chip
  else if sub = 0x0055 then
    forLoop storeRegister (List.range (x + 1)) chip
  else if sub = 0x0065 then
    forLoop loadRegister (List.range (x + 1)) chip
  else .panic .unknownOpcode chip

/-- The method `decodeAndExecuteOpcode(opcode uint16)`. The argument `rnd`
is the value that `rand.Intn(256)` returns when the opcode is CXNN. In 00EE
the byte decrement `sp--` wraps from 0 to 255 before `stack[sp]` is read. -/
def Chip8.decodeAndExecuteOpcode (rnd : Nat) (chip : Chip8) (opcode : Nat) : Exec :=
  let family := opcode &&& 0xF000
  if family = 0x0000 then
    let sub := opcode &&& 0x00FF
    if sub = 0x00E0 then
      .ok { chip with
        display := fun i => if i < displaySize then 0 else chip.display i
        drawFlag := true }
    else if sub = 0x00EE then
      let sp1 := (chip.sp + 255) % 256
      if sp1 < stackSize then .ok { chip with sp := sp1, pc := chip.stack sp1 }
      else .panic .indexOutOfRange { chip with sp := sp1 }
    else .panic .unknownOpcode chip
  else if family = 0x1000 then
    .ok { chip with pc := opcode &&& 0x0FFF }
  else if family = 0x2000 then
    if chip.sp < stackSize then
      .ok { chip with
        stack := setAt chip.stack chip.sp chip.pc
        sp := (chip.sp + 1) % 256
        pc := opcode &&& 0x0FFF }
    else .panic .indexOutOfRange chip
  else if family = 0x3000 then
    if chip.registers ((opcode &&& 0x0F00) >>> 8) = (opcode &&& 0x00FF) % 256 then
      .ok { chip with pc := (chip.pc + 2) % 65536 }
    else .ok chip
  else if family = 0x4000 then
    if chip.registers ((opcode &&& 0x0F00) >>> 8) ≠ (opcode &&& 0x00FF) % 256 then
      .ok { chip with pc := (chip.pc + 2) % 65536 }
    else .ok chip
  else if family = 0x5000 then
    if chip.registers ((opcode &&& 0x0F00) >>> 8) = chip.registers ((opcode &&& 0x00F0) >>> 4) then
      .ok { chip with pc := (chip.pc + 2) % 65536 }
    else .ok chip
  else if family = 0x6000 then
    .ok { chip with
      registers := setAt chip.registers ((opcode &&& 0x0F00) >>> 8) ((opcode &&& 0x00FF) % 256) }
  else if family = 0x7000 then
    .ok { chip with
      registers := setAt chip.registers ((opcode &&& 0x0F00) >>> 8)
        ((chip.registers ((opcode &&& 0x0F00) >>> 8) + (opcode &&& 0x00FF) % 256) % 256) }
  else if family = 0x8000 then
    execAlu chip opcode
  else if family = 0x9000 then
    if chip.registers ((opcode &&& 0x0F00) >>> 8) ≠ chip.registers ((opcode &&& 0x00F0) >>> 4) then
      .ok { chip with pc := (chip.pc + 2) % 65536 }
    else .ok chip
  else if family = 0xA000 then
    .ok { chip with index := opcode &&& 0x0FFF }
  else if family = 0xB000 then
    .ok { chip with pc := ((opcode &&& 0x0FFF) + chip.registers 0) % 65536 }
  else if family = 0xC000 then
    .ok { chip with
      registers := setAt chip.registers ((opcode &&& 0x0F00) >>> 8)
        ((rnd % 256) &&& ((opcode &&& 0x00FF) % 256)) }
  else if family = 0xD000 then
    let x := chip.registers ((opcode &&& 0x0F00) >>> 8)
    let y := chip.registers ((opcode &&& 0x00F0) >>> 4)
    let height := (opcode &&& 0x000F) % 256
    chip.drawSprite x y height
  else if family = 0xE000 then
    let sub := opcode &&& 0x00FF
    if sub = 0x009E then
      if chip.registers ((opcode &&& 0x0F00) >>> 8) < keypadSize then
        if chip.keypad (chip.registers ((opcode &&& 0x0F00) >>> 8)) ≠ 0 then
          .ok { chip with pc := (chip.pc + 2) % 65536 }
        else .ok chip
      else .panic .indexOutOfRange chip
    else if sub = 0x00A1 then
      if chip.registers ((opcode &&& 0x0F00) >>> 8) < keypadSize then
        if chip.keypad (chip.registers ((opcode &&& 0x0F00) >>> 8)) = 0 then
          .ok { chip with pc := (chip.pc + 2) % 65536 }
        else .ok chip
      else .panic .indexOutOfRange chip
    else .panic .unknownOpcode chip
  else if family = 0xF000 then
    execMisc chip opcode
  else .panic .unknownOpcode chip

/-- A machine that is zero except for the listed register values
(`regs[i]` goes to register `i`). -/
def Chip8.withRegisters (regs : List Nat) : Chip8 :=
  { Chip8.zero with registers := fun i => regs.getD i 0 }

/-- The zero machine with one sprite row `0xFF` stored at `memory[0]`. -/
def Chip8.withSolidRow : Chip8 :=
  { Chip8.zero with memory := setAt Chip8.zero.memory 0 0xFF }

/-! ## Flags and results of the arithmetic opcodes, as specified -/

/-- The flag of 8XYN for `N` in 4, 5, 6, 7, 0xE, from the values `vx`, `vy`
that `reg[X]` and `reg[Y]` hold before the instruction: carry, not-borrow,
shifted-out least significant bit, not-borrow, shifted-out most significant
bit. -/
def specFlag (n vx vy : Nat) : Nat :=
  if n = 4 then (if vx + vy > 255 then 1 else 0)
  else if n = 5 then (if vx ≥ vy then 1 else 0)
  else if n = 6 then vx % 2
  else if n = 7 then (if vy ≥ vx then 1 else 0)
  else vx / 128 % 2

/-- The result of 8XYN for `N` in 4, 5, 6, 7, 0xE, from the values before the
instruction: sum, difference, right shift, reverse difference, left shift, all
modulo 256. -/
def specResult (n vx vy : Nat) : Nat :=
  if n = 4 then (vx + vy) % 256
  else if n = 5 then (vx + 256 - vy) % 256
  else if n = 6 then vx / 2
  else if n = 7 then (vy + 256 - vx) % 256
  else (vx * 2) % 256

/-! ## The instruction table of the specification -/

/-- Whether a 16-bit word matches a row of the instruction table: 00E0, 00EE,
1NNN, 2NNN, 3XNN, 4XNN, 5XY0, 6XNN, 7XNN, 8XY0-8XY7, 8XYE, 9XY0, ANNN, BNNN,
CXNN, DXYN, EX9E, EXA1, FX07, FX0A, FX15, FX18, FX1E, FX29, FX33, FX55, FX65. -/
def inInstructionTable (op : Nat) : Bool :=
  let a := op / 4096 % 16
  let d := op % 16
  let low := op % 256
  if a = 0 then op == 0x00E0 || op == 0x00EE
  else if a = 5 ∨ a = 9 then d == 0
  else if a = 8 then decide (d ≤ 7) || d == 0xE
  else if a = 0xE then low == 0x9E || low == 0xA1
  else if a = 0xF then
    [0x07, 0x0A, 0x15, 0x18, 0x1E, 0x29, 0x33, 0x55, 0x65].contains low
  else true

/-- Words outside the table that the dispatch nevertheless accepts, because it
looks only at the top nibble (5XYN, 9XYN with any `N`) or only at the top
nibble and the low byte (0XE0, 0XEE with any `X`). -/
def matchesIgnoringUnusedNibble (op : Nat) : Bool :=
  let a := op / 4096 % 16
  let low := op % 256
  a == 5 || a == 9 || (a == 0 && (low == 0xE0 || low == 0xEE))

/-- Jump, call and return rows of the table: 1NNN, 2NNN, BNNN, 00EE. They
assign the program counter instead of advancing it. -/
def isJumpCallReturn (op : Nat) : Bool :=
  let a := op / 4096 % 16
  a == 1 || a == 2 || a == 0xB || op == 0x00EE

/-- The skip rows of the table with their conditions: 3XNN `reg[X] == NN`,
4XNN `reg[X] != NN`, 5XY0 `reg[X] == reg[Y]`, 9XY0 `reg[X] != reg[Y]`,
EX9E key `reg[X]` pressed, EXA1 key `reg[X]` not pressed. -/
def skipConditionHolds (s : Chip8) (op : Nat) : Bool :=
  let a := op / 4096 % 16
  let x := op / 256 % 16
  let y := op / 16 % 16
  let d := op % 16
  let low := op % 256
  if a = 3 then s.registers x == low
  else if a = 4 then s.registers x != low
  else if a = 5 ∧ d = 0 then s.registers x == s.registers y
  else if a = 9 ∧ d = 0 then s.registers x != s.registers y
  else if a = 0xE ∧ low = 0x9E then s.keypad (s.registers x) != 0
  else if a = 0xE ∧ low = 0xA1 then s.keypad (s.registers x) == 0
  else false

/-! ## Loop invariants of `drawSprite` -/

/-- What the inner loop of `drawSprite` has done after `k` columns of the row
`yline` whose sprite byte is `pixel`, started on machine `c`. -/
structure RowDrawn (x y yline pixel k : Nat) (c t : Chip8) : Prop where
  frame : t = { c with registers := t.registers, display := t.display }
  registers_other : ∀ j, j ≠ 0xF → t.registers j = c.registers j
  display_hit : ∀ j, (∃ col, col < k ∧ pixel &&& (0x80 >>> col) ≠ 0 ∧
      j = x + col + (y + yline) * 64) → t.display j = c.display j ^^^ 1
  display_miss : ∀ j, ¬ (∃ col, col < k ∧ pixel &&& (0x80 >>> col) ≠ 0 ∧
      j = x + col + (y + yline) * 64) → t.display j = c.display j
  flag_set : (∃ col, col < k ∧ pixel &&& (0x80 >>> col) ≠ 0 ∧
      c.display (x + col + (y + yline) * 64) = 1) → t.registers 0xF = 1
  flag_kept : ¬ (∃ col, col < k ∧ pixel &&& (0x80 >>> col) ≠ 0 ∧
      c.display (x + col + (y + yline) * 64) = 1) → t.registers 0xF = c.registers 0xF

/-- What the outer loop of `drawSprite` has done after `m` rows, started on
machine `c`. -/
structure SpriteDrawn (x y m : Nat) (c t : Chip8) : Prop where
  frame : t = { c with registers := t.registers, display := t.display }
  registers_other : ∀ j, j ≠ 0xF → t.registers j = c.registers j
  display_hit : ∀ j, (∃ r col, r < m ∧ col < 8 ∧
      c.memory (c.index + r) &&& (0x80 >>> col) ≠ 0 ∧ j = x + col + (y + r) * 64) →
    t.display j = c.display j ^^^ 1
  display_miss : ∀ j, ¬ (∃ r col, r < m ∧ col < 8 ∧
      c.memory (c.index + r) &&& (0x80 >>> col) ≠ 0 ∧ j = x + col + (y + r) * 64) →
    t.display j = c.display j
  flag_set : (∃ r col, r < m ∧ col < 8 ∧ c.memory (c.index + r) &&& (0x80 >>> col) ≠ 0 ∧
      c.display (x + col + (y + r) * 64) = 1) → t.registers 0xF = 1
  flag_kept : ¬ (∃ r col, r < m ∧ col < 8 ∧ c.memory (c.index + r) &&& (0x80 >>> col) ≠ 0 ∧
      c.display (x + col + (y + r) * 64) = 1) → t.registers 0xF = c.registers 0xF

/-- Bit `7 - col` of row `r` of the sprite at `memory[index ..]`: the pixel of
column `col`, most significant bit first. -/
def spriteBit (s : Chip8) (r col : Nat) : Bool :=
  (s.memory (s.index + r)).testBit (7 - col)

/-- The effect of a whole `drawSprite(x, y, height)` call that took machine
`s` to machine `t`. -/
structure DrawEffect (x y height : Nat) (s t : Chip8) : Prop where
  frame : t = { s with registers := t.registers, display := t.display, drawFlag := true }
  registers_other : ∀ j, j ≠ 0xF → t.registers j = s.registers j
  display_hit : ∀ r col, r < height → col < 8 → spriteBit s r col = true →
    t.display (x + col + (y + r) * 64) = s.display (x + col + (y + r) * 64) ^^^ 1
  display_miss : ∀ j, ¬ (∃ r col, r < height ∧ col < 8 ∧ spriteBit s r col = true ∧
      j = x + col + (y + r) * 64) → t.display j = s.display j
  flag_set : (∃ r col, r < height ∧ col < 8 ∧ spriteBit s r col = true ∧
      s.display (x + col + (y + r) * 64) = 1) → t.registers 0xF = 1
  flag_clear : ¬ (∃ r col, r < height ∧ col < 8 ∧ spriteBit s r col = true ∧
      s.display (x + col + (y + r) * 64) = 1) → t.registers 0xF = 0


/-! ## Fetch as a call, glyph rows, and sample machines -/

/-- The call `chip.fetchOpcode()` on the pointer receiver: the machine after
the call together with the word returned (`none` when a read panics). The
body of the method assigns to no field of `chip`. -/
def Chip8.fetchOpcodeCall (chip : Chip8) : Chip8 × Option Nat :=
  (chip, chip.fetchOpcode)

/-- Row `i` of the 5-byte glyph for the hexadecimal digit `d` in `fonts`. -/
def glyphRow (d i : Nat) : Nat := fonts.getD (5 * d + i) 0

/-- The zero machine with the word `0x1234` stored big-endian at `0x200` and
the program counter pointing at it. -/
def Chip8.withProgramWord : Chip8 :=
  { Chip8.zero with
    memory := fun a => if a = 0x200 then 0x12 else if a = 0x201 then 0x34 else 0
    pc := 0x200 }

/-- The machine of the font lookup: `initialize` on the zero machine, then
`reg[0] = d`, then opcode 0xF029 (FX29 with `X = 0`). -/
def fontLookup (d : Nat) : Exec :=
  ({ Chip8.initialize Chip8.zero with registers := setAt Chip8.zero.registers 0 d } :
    Chip8).decodeAndExecuteOpcode 0 0xF029

/-! ## Bit fields of an opcode word -/

theorem and_shiftLeft_shiftRight (n m k : Nat) : (n &&& (m <<< k)) >>> k = (n >>> k) &&& m := by
  apply Nat.eq_of_testBit_eq
  intro i
  simp [Nat.testBit_shiftLeft, Nat.testBit_shiftRight, Nat.testBit_and]

theorem and_shiftLeft_eq (n m k : Nat) : n &&& (m <<< k) = ((n >>> k) &&& m) <<< k := by
  apply Nat.eq_of_testBit_eq
  intro i
  simp only [Nat.testBit_shiftLeft, Nat.testBit_shiftRight, Nat.testBit_and]
  by_cases hi : k ≤ i
  · simp [hi, Nat.add_sub_cancel' hi]
  · simp [hi]

theorem and_000F (n : Nat) : n &&& 0x000F = n % 16 :=
  Nat.and_pow_two_sub_one_eq_mod n 4

theorem and_00FF (n : Nat) : n &&& 0x00FF = n % 256 :=
  Nat.and_pow_two_sub_one_eq_mod n 8

theorem and_0FFF (n : Nat) : n &&& 0x0FFF = n % 4096 :=
  Nat.and_pow_two_sub_one_eq_mod n 12

theorem and_0F00_shift (n : Nat) : (n &&& 0x0F00) >>> 8 = n / 256 % 16 := by
  have h := and_shiftLeft_shiftRight n 0xF 8
  rw [and_000F, Nat.shiftRight_eq_div_pow n 8] at h
  exact h

theorem and_00F0_shift (n : Nat) : (n &&& 0x00F0) >>> 4 = n / 16 % 16 := by
  have h := and_shiftLeft_shiftRight n 0xF 4
  rw [and_000F, Nat.shiftRight_eq_div_pow n 4] at h
  exact h

theorem and_F000 (n : Nat) : n &&& 0xF000 = n / 4096 % 16 * 4096 := by
  have h := and_shiftLeft_eq n 0xF 12
  rw [and_000F, Nat.shiftRight_eq_div_pow n 12, Nat.shiftLeft_eq (n / 2 ^ 12 % 16) 12] at h
  exact h

/-! ## Unfolding the dispatch, one opcode family at a time -/

theorem exec_7XNN (rnd : Nat) (s : Chip8) (op : Nat) (h : op / 4096 % 16 = 7) :
    s.decodeAndExecuteOpcode rnd op = .ok { s with
      registers := setAt s.registers (op / 256 % 16)
        ((s.registers (op / 256 % 16) + op % 256) % 256) } := by
  simp [Chip8.decodeAndExecuteOpcode, and_F000, and_0F00_shift, and_00FF, h]

theorem exec_2NNN (rnd : Nat) (s : Chip8) (op : Nat) (h : op / 4096 % 16 = 2)
    (hsp : s.sp < stackSize) :
    s.decodeAndExecuteOpcode rnd op = .ok { s with
      stack := setAt s.stack s.sp s.pc
      sp := (s.sp + 1) % 256
      pc := op % 4096 } := by
  simp [Chip8.decodeAndExecuteOpcode, and_F000, and_0FFF, h, hsp]

theorem exec_00EE (rnd : Nat) (s : Chip8) (op : Nat) (h : op / 4096 % 16 = 0)
    (hlow : op % 256 = 0xEE) (hsp : (s.sp + 255) % 256 < stackSize) :
    s.decodeAndExecuteOpcode rnd op = .ok { s with
      sp := (s.sp + 255) % 256
      pc := s.stack ((s.sp + 255) % 256) } := by
  simp [Chip8.decodeAndExecuteOpcode, and_F000, and_00FF, h, hlow, hsp]

theorem exec_8XYN (rnd : Nat) (s : Chip8) (op : Nat) (h : op / 4096 % 16 = 8) :
    s.decodeAndExecuteOpcode rnd op = execAlu s op := by
  simp [Chip8.decodeAndExecuteOpcode, and_F000, h]

theorem exec_FXNN (rnd : Nat) (s : Chip8) (op : Nat) (h : op / 4096 % 16 = 15) :
    s.decodeAndExecuteOpcode rnd op = execMisc s op := by
  simp [Chip8.decodeAndExecuteOpcode, and_F000, h]

theorem withRegisters_wellFormed (regs : List Nat) (h : ∀ v ∈ regs, v < 256) :
    (Chip8.withRegisters regs).WellFormed := by
  constructor <;> try (intros; simp [Chip8.withRegisters, Chip8.zero]; done)
  intro i _
  simp only [Chip8.withRegisters, List.getD_eq_getElem?_getD]
  cases hi : regs[i]? with
  | none => simp
  | some v => simpa using h v (List.getElem?_mem hi)

/-! ## Arithmetic opcodes -/

/-- C1. Opcode 7XNN returns normally with `reg[X] = (old reg[X] + NN) mod 256`;
every other register keeps its value, in particular `reg[0xF]` when `X` is not
`0xF`: no carry flag is written. -/
theorem add_immediate_7XNN (rnd : Nat) (s : Chip8) (X NN : Nat) (hX : X < 16) (hNN : NN < 256) :
    ∃ t, s.decodeAndExecuteOpcode rnd (0x7000 + X * 0x100 + NN) = .ok t ∧
      t.registers X = (s.registers X + NN) % 256 ∧
      (∀ j, j ≠ X → t.registers j = s.registers j) ∧
      (X ≠ 0xF → t.registers 0xF = s.registers 0xF) := by
  have hf : (0x7000 + X * 0x100 + NN) / 4096 % 16 = 7 := by omega
  have hx : (0x7000 + X * 0x100 + NN) / 256 % 16 = X := by omega
  have hn : (0x7000 + X * 0x100 + NN) % 256 = NN := by omega
  refine ⟨_, exec_7XNN rnd s _ hf, ?_, ?_, ?_⟩
  · simp [setAt, hx, hn]
  · intro j hj
    simp [setAt, hx, hj]
  · intro hF
    simp [setAt, hx, Ne.symm hF]

/-- Witness for C1: `reg[3] = 0xFF`, `reg[0xF] = 7`, opcode 0x7302 wraps
`reg[3]` to 1 and leaves `reg[0xF] = 7`. -/
theorem add_immediate_7XNN_witness :
    ∃ t, (Chip8.withRegisters [0, 0, 0, 0xFF, 0, 0, 0, 0, 0, 0, 0, 0, 0, 0, 0, 7]).decodeAndExecuteOpcode
        0 (0x7000 + 3 * 0x100 + 2) = .ok t ∧
      t.registers 3 = 1 ∧ t.registers 0xF = 7 := by
  obtain ⟨t, h, h3, -, hF⟩ := add_immediate_7XNN 0
    (Chip8.withRegisters [0, 0, 0, 0xFF, 0, 0, 0, 0, 0, 0, 0, 0, 0, 0, 0, 7]) 3 2
    (by decide) (by decide)
  exact ⟨t, h, h3, hF (by decide)⟩

/-- C2. For `X` and `Y` other than `0xF`, opcode 8XY4 returns normally with
`reg[X] = (old reg[X] + old reg[Y]) mod 256` and `reg[0xF] = 1` when the sum
exceeds 255, else `0`. -/
theorem add_carry_8XY4 (rnd : Nat) (s : Chip8) (X Y : Nat) (hs : s.WellFormed)
    (hX : X < 15) (hY : Y < 15) :
    ∃ t, s.decodeAndExecuteOpcode rnd (0x8004 + X * 0x100 + Y * 0x10) = .ok t ∧
      t.registers X = (s.registers X + s.registers Y) % 256 ∧
      t.registers 0xF = (if s.registers X + s.registers Y > 255 then 1 else 0) := by
  have hf : (0x8004 + X * 0x100 + Y * 0x10) / 4096 % 16 = 8 := by omega
  have hx : (0x8004 + X * 0x100 + Y * 0x10) / 256 % 16 = X := by omega
  have hy : (0x8004 + X * 0x100 + Y * 0x10) / 16 % 16 = Y := by omega
  have hn : (0x8004 + X * 0x100 + Y * 0x10) % 16 = 4 := by omega
  have hrx := hs.registers_lt X (by unfold registerCount; omega)
  have hX15 : X ≠ 15 := by omega
  have hY15 : Y ≠ 15 := by omega
  have hX15b : ¬ 15 = X := by omega
  rw [exec_8XYN rnd s _ hf]
  simp only [execAlu, and_0F00_shift, and_00F0_shift, and_000F, hx, hy, hn]
  refine ⟨_, rfl, ?_, ?_⟩
  · by_cases hc : s.registers Y > 0xFF - s.registers X <;> simp [hc, setAt, hX15, hY15]
  · by_cases hc : s.registers Y > 0xFF - s.registers X
    · have : s.registers X + s.registers Y > 255 := by omega
      simp [hc, setAt, hX15b, this]
    · have : ¬ s.registers X + s.registers Y > 255 := by omega
      simp [hc, setAt, hX15b, this]

/-- Witness for C2: `reg[1] = 0xFF`, `reg[2] = 0x01`, opcode 0x8124 gives
`reg[1] = 0x00` and `reg[0xF] = 1`. -/
theorem add_carry_8XY4_witness :
    ∃ t, (Chip8.withRegisters [0, 0xFF, 0x01]).decodeAndExecuteOpcode 0
        (0x8004 + 1 * 0x100 + 2 * 0x10) = .ok t ∧
      t.registers 1 = 0x00 ∧ t.registers 0xF = 1 := by
  obtain ⟨t, h, h1, hF⟩ := add_carry_8XY4 0 (Chip8.withRegisters [0, 0xFF, 0x01]) 1 2
    (withRegisters_wellFormed _ (by decide)) (by decide) (by decide)
  exact ⟨t, h, by simpa [Chip8.withRegisters] using h1, by simpa [Chip8.withRegisters] using hF⟩

/-- C3. For `X` and `Y` other than `0xF`, opcode 8XY5 returns normally with
`reg[X] = (old reg[X] - old reg[Y]) mod 256` and `reg[0xF] = 1` when
`old reg[X] >= old reg[Y]` (no borrow), else `0`. -/
theorem sub_borrow_8XY5 (rnd : Nat) (s : Chip8) (X Y : Nat) (hX : X < 15) (hY : Y < 15) :
    ∃ t, s.decodeAndExecuteOpcode rnd (0x8005 + X * 0x100 + Y * 0x10) = .ok t ∧
      (t.registers X : Int) = ((s.registers X : Int) - (s.registers Y : Int)) % 256 ∧
      t.registers 0xF = (if s.registers X ≥ s.registers Y then 1 else 0) := by
  have hf : (0x8005 + X * 0x100 + Y * 0x10) / 4096 % 16 = 8 := by omega
  have hx : (0x8005 + X * 0x100 + Y * 0x10) / 256 % 16 = X := by omega
  have hy : (0x8005 + X * 0x100 + Y * 0x10) / 16 % 16 = Y := by omega
  have hn : (0x8005 + X * 0x100 + Y * 0x10) % 16 = 5 := by omega
  have hX15 : X ≠ 15 := by omega
  have hY15 : Y ≠ 15 := by omega
  have hX15b : ¬ 15 = X := by omega
  have hsub : ∀ a b : Nat, (subByte a b : Int) = ((a : Int) - (b : Int)) % 256 := by
    intro a b
    unfold subByte
    omega
  rw [exec_8XYN rnd s _ hf]
  simp only [execAlu, and_0F00_shift, and_00F0_shift, and_000F, hx, hy, hn]
  refine ⟨_, rfl, ?_, ?_⟩
  · rw [← hsub]
    by_cases hc : s.registers Y > s.registers X <;> simp [hc, setAt, hX15, hY15]
  · by_cases hc : s.registers Y > s.registers X
    · have : ¬ s.registers Y ≤ s.registers X := by omega
      simp [hc, setAt, hX15b, this]
    · have : s.registers Y ≤ s.registers X := by omega
      simp [hc, setAt, hX15b, this]

/-- Witness for C3: `reg[1] = 0x05`, `reg[2] = 0x0A`, opcode 0x8125 gives
`reg[1] = 0xFB` and `reg[0xF] = 0`. -/
theorem sub_borrow_8XY5_witness :
    ∃ t, (Chip8.withRegisters [0, 0x05, 0x0A]).decodeAndExecuteOpcode 0
        (0x8005 + 1 * 0x100 + 2 * 0x10) = .ok t ∧
      (t.registers 1 : Int) = 0xFB ∧ t.registers 0xF = 0 := by
  obtain ⟨t, h, h1, hF⟩ := sub_borrow_8XY5 0 (Chip8.withRegisters [0, 0x05, 0x0A]) 1 2
    (by decide) (by decide)
  exact ⟨t, h, by simpa [Chip8.withRegisters] using h1, by simpa [Chip8.withRegisters] using hF⟩

/-! ## The flag opcodes away from `VF` -/

theorem alu_matches_spec_off_VF (rnd : Nat) (s : Chip8) (X Y n : Nat) (hs : s.WellFormed)
    (hX : X < 15) (hY : Y < 15) (hn : n = 4 ∨ n = 5 ∨ n = 6 ∨ n = 7 ∨ n = 0xE) :
    ∃ t, s.decodeAndExecuteOpcode rnd (0x8000 + X * 0x100 + Y * 0x10 + n) = .ok t ∧
      t.registers 0xF = specFlag n (s.registers X) (s.registers Y) ∧
      t.registers X = specResult n (s.registers X) (s.registers Y) := by
  have hf : (0x8000 + X * 0x100 + Y * 0x10 + n) / 4096 % 16 = 8 := by omega
  have hx : (0x8000 + X * 0x100 + Y * 0x10 + n) / 256 % 16 = X := by omega
  have hy : (0x8000 + X * 0x100 + Y * 0x10 + n) / 16 % 16 = Y := by omega
  have hd : (0x8000 + X * 0x100 + Y * 0x10 + n) % 16 = n := by omega
  have hrx := hs.registers_lt X (by unfold registerCount; omega)
  have hry := hs.registers_lt Y (by unfold registerCount; omega)
  have hX15 : X ≠ 15 := by omega
  have hY15 : Y ≠ 15 := by omega
  have hX15b : ¬ 15 = X := by omega
  rw [exec_8XYN rnd s _ hf]
  simp only [execAlu, and_0F00_shift, and_00F0_shift, and_000F, hx, hy, hd]
  rcases hn with h | h | h | h | h <;> subst h <;>
    simp only [Nat.reduceEqDiff, if_true, if_false, specFlag, specResult]
  · refine ⟨_, rfl, ?_, ?_⟩
    · by_cases hc : s.registers Y > 0xFF - s.registers X
      · have : s.registers X + s.registers Y > 255 := by omega
        simp [hc, setAt, hX15b, this]
      · have : ¬ s.registers X + s.registers Y > 255 := by omega
        simp [hc, setAt, hX15b, this]
    · by_cases hc : s.registers Y > 0xFF - s.registers X <;> simp [hc, setAt, hX15, hY15]
  · refine ⟨_, rfl, ?_, ?_⟩
    · by_cases hc : s.registers Y > s.registers X
      · have : ¬ s.registers Y ≤ s.registers X := by omega
        simp [hc, setAt, hX15b, this]
      · have : s.registers Y ≤ s.registers X := by omega
        simp [hc, setAt, hX15b, this]
    · have hsub : subByte (s.registers X) (s.registers Y)
          = (s.registers X + 256 - s.registers Y) % 256 := by
        unfold subByte
        omega
      by_cases hc : s.registers Y > s.registers X <;> simp [hc, setAt, hX15, hY15, hsub]
  · refine ⟨_, rfl, ?_, ?_⟩
    · simp [setAt, hX15b, Nat.and_one_is_mod]
    · simp [setAt, hX15, Nat.shiftRight_eq_div_pow]
  · refine ⟨_, rfl, ?_, ?_⟩
    · by_cases hc : s.registers X > s.registers Y
      · have : ¬ s.registers X ≤ s.registers Y := by omega
        simp [hc, setAt, hX15b, this]
      · have : s.registers X ≤ s.registers Y := by omega
        simp [hc, setAt, hX15b, this]
    · have hsub : subByte (s.registers Y) (s.registers X)
          = (s.registers Y + 256 - s.registers X) % 256 := by
        unfold subByte
        omega
      by_cases hc : s.registers X > s.registers Y <;> simp [hc, setAt, hX15, hY15, hsub]
  · refine ⟨_, rfl, ?_, ?_⟩
    · simp only [setAt, hX15b, if_false, if_true, Nat.shiftRight_eq_div_pow]
      omega
    · simp only [setAt, hX15, if_false, if_true, Nat.shiftLeft_eq]

/-- C4, the code at inputs where `X` or `Y` is `0xF`. The flag is stored
before the result, so the result overwrites it (`X = 0xF`) or is computed from
it (`Y = 0xF`):
* 0x8F04 with `reg[0xF] = 0xFF`, `reg[0] = 1` leaves `reg[0xF] = 2`, the carry is 1;
* 0x8F06 with `reg[0xF] = 3` leaves `reg[0xF] = 0`, the shifted-out bit is 1;
* 0x8FFE with `reg[0xF] = 0x80` leaves `reg[0xF] = 2`, the shifted-out bit is 1;
* 0x80F4 with `reg[0] = 1`, `reg[0xF] = 5` leaves `reg[0] = 1`, the sum is 6. -/
theorem flag_clobbered_when_operand_is_VF :
    (((Chip8.withRegisters [1, 0, 0, 0, 0, 0, 0, 0, 0, 0, 0, 0, 0, 0, 0, 0xFF]).decodeAndExecuteOpcode
        0 0x8F04).chip.registers 0xF = 2 ∧ specFlag 4 0xFF 1 = 1) ∧
    (((Chip8.withRegisters [0, 0, 0, 0, 0, 0, 0, 0, 0, 0, 0, 0, 0, 0, 0, 3]).decodeAndExecuteOpcode
        0 0x8F06).chip.registers 0xF = 0 ∧ specFlag 6 3 0 = 1) ∧
    (((Chip8.withRegisters [0, 0, 0, 0, 0, 0, 0, 0, 0, 0, 0, 0, 0, 0, 0, 0x80]).decodeAndExecuteOpcode
        0 0x8FFE).chip.registers 0xF = 2 ∧ specFlag 0xE 0x80 0x80 = 1) ∧
    (((Chip8.withRegisters [1, 0, 0, 0, 0, 0, 0, 0, 0, 0, 0, 0, 0, 0, 0, 5]).decodeAndExecuteOpcode
        0 0x80F4).chip.registers 0 = 1 ∧ specResult 4 1 5 = 6) := by
  decide

/-! ## Binary-coded decimal -/

/-- C5. With `index + 2 <= 4095`, opcode FX33 returns normally and stores
three decimal digits at `memory[index]`, `memory[index+1]`, `memory[index+2]`
with `100*h + 10*t + u = reg[X]`; no other memory byte changes, and nothing
else of the machine (registers, index, ...) changes. -/
theorem bcd_FX33 (rnd : Nat) (s : Chip8) (X : Nat) (hs : s.WellFormed) (hX : X < 16)
    (hidx : s.index + 2 ≤ 4095) :
    ∃ t, s.decodeAndExecuteOpcode rnd (0xF033 + X * 0x100) = .ok t ∧
      t.memory s.index < 10 ∧ t.memory (s.index + 1) < 10 ∧ t.memory (s.index + 2) < 10 ∧
      100 * t.memory s.index + 10 * t.memory (s.index + 1) + t.memory (s.index + 2)
        = s.registers X ∧
      (∀ a, a ≠ s.index → a ≠ s.index + 1 → a ≠ s.index + 2 → t.memory a = s.memory a) ∧
      t.registers = s.registers ∧ t.index = s.index ∧
      t = { s with memory := t.memory } := by
  have hf : (0xF033 + X * 0x100) / 4096 % 16 = 15 := by omega
  have hx : (0xF033 + X * 0x100) / 256 % 16 = X := by omega
  have hn : (0xF033 + X * 0x100) % 256 = 0x33 := by omega
  have hr := hs.registers_lt X hX
  have h0 : s.index < memorySize := by unfold memorySize; omega
  have h1 : (s.index + 1) % 65536 = s.index + 1 := by omega
  have h2 : (s.index + 2) % 65536 = s.index + 2 := by omega
  have h1m : s.index + 1 < memorySize := by unfold memorySize; omega
  have h2m : s.index + 2 < memorySize := by unfold memorySize; omega
  rw [exec_FXNN rnd s _ hf]
  simp only [execMisc, and_0F00_shift, and_00FF, hx, hn]
  simp only [h0, h1, h2, h1m, h2m, if_true]
  refine ⟨_, rfl, ?_, ?_, ?_, ?_, ?_, rfl, rfl, rfl⟩
  · simp [setAt]; omega
  · simp [setAt]; omega
  · simp [setAt]; omega
  · simp [setAt]; omega
  · intro a ha0 ha1 ha2
    simp [setAt, ha0, ha1, ha2]

/-- Witness for C5: `reg[2] = 156`, `index = 0`, opcode 0xF233 stores 1, 5, 6. -/
theorem bcd_FX33_witness :
    ∃ t, (Chip8.withRegisters [0, 0, 156]).decodeAndExecuteOpcode 0 (0xF033 + 2 * 0x100) = .ok t ∧
      t.memory 0 = 1 ∧ t.memory 1 = 5 ∧ t.memory 2 = 6 := by
  obtain ⟨t, h, -⟩ := bcd_FX33 0 (Chip8.withRegisters [0, 0, 156]) 2
    (withRegisters_wellFormed _ (by decide)) (by decide) (by decide)
  refine ⟨t, h, ?_⟩
  have ht : t = ((Chip8.withRegisters [0, 0, 156]).decodeAndExecuteOpcode 0
      (0xF033 + 2 * 0x100)).chip := by rw [h]; rfl
  subst ht
  decide

/-! ## Call and return -/

/-- C7. With stack pointer below 16, opcode 2NNN followed by opcode 00EE
returns normally and leaves the program counter and the stack pointer at the
values they had before the call. -/
theorem call_return_roundtrip (rnd1 rnd2 : Nat) (s : Chip8) (NNN : Nat) (hN : NNN < 4096)
    (hsp : s.sp < 16) :
    ∃ t u, s.decodeAndExecuteOpcode rnd1 (0x2000 + NNN) = .ok t ∧
      t.decodeAndExecuteOpcode rnd2 0x00EE = .ok u ∧
      u.pc = s.pc ∧ u.sp = s.sp := by
  have hf : (0x2000 + NNN) / 4096 % 16 = 2 := by omega
  have h1 : (s.sp + 1) % 256 = s.sp + 1 := by omega
  have h2 : (s.sp + 1 + 255) % 256 = s.sp := by omega
  have hsp2 : s.sp < stackSize := hsp
  have e1 := exec_2NNN rnd1 s _ hf hsp2
  refine ⟨_, _, e1, exec_00EE rnd2 _ 0x00EE (by decide) (by decide) ?_, ?_, ?_⟩
  · simpa [h1, h2] using hsp2
  · simp [setAt, h1, h2]
  · simp [h1, h2]

/-- Witness for C7: from the zero machine with `pc = 0x234`, calling 0x2ABC
and returning restores `pc = 0x234` and `sp = 0`. -/
theorem call_return_roundtrip_witness :
    ∃ t u, ({ Chip8.zero with pc := 0x234 } : Chip8).decodeAndExecuteOpcode 0 (0x2000 + 0xABC)
        = .ok t ∧
      t.decodeAndExecuteOpcode 0 0x00EE = .ok u ∧ u.pc = 0x234 ∧ u.sp = 0 :=
  call_return_roundtrip 0 0 { Chip8.zero with pc := 0x234 } 0xABC (by decide) (by decide)

/-! ## Loops: what an iteration keeps, the loop keeps -/

theorem forLoop_not_unknownOpcode (body : Nat → Chip8 → Exec)
    (h : ∀ i c, (body i c).isUnknownOpcode = false) (l : List Nat) (c : Chip8) :
    (forLoop body l c).isUnknownOpcode = false := by
  induction l generalizing c with
  | nil => rfl
  | cons i is ih =>
    have hi := h i c
    unfold forLoop
    cases hb : body i c with
    | ok c1 => exact ih c1
    | panic k c1 =>
      rw [hb] at hi
      exact hi

theorem forLoop_ok_invariant (body : Nat → Chip8 → Exec) (P : Chip8 → Prop)
    (h : ∀ i c c1, P c → body i c = .ok c1 → P c1) (l : List Nat) (c t : Chip8)
    (hc : P c) (hl : forLoop body l c = .ok t) : P t := by
  induction l generalizing c with
  | nil =>
    simp only [forLoop, Exec.ok.injEq] at hl
    exact hl ▸ hc
  | cons i is ih =>
    unfold forLoop at hl
    cases hb : body i c with
    | ok c1 =>
      rw [hb] at hl
      exact ih c1 (h i c c1 hc hb) hl
    | panic k c1 =>
      rw [hb] at hl
      cases hl

theorem drawPixel_not_unknownOpcode (x y yline pixel xline : Nat) (c : Chip8) :
    (drawPixel x y yline pixel xline c).isUnknownOpcode = false := by
  simp only [drawPixel]
  split_ifs <;> rfl

theorem drawRow_not_unknownOpcode (x y yline : Nat) (c : Chip8) :
    (drawRow x y yline c).isUnknownOpcode = false := by
  simp only [drawRow]
  split_ifs
  · exact forLoop_not_unknownOpcode _ (drawPixel_not_unknownOpcode x y yline _) _ c
  · rfl

theorem drawSprite_not_unknownOpcode (c : Chip8) (x y height : Nat) :
    (c.drawSprite x y height).isUnknownOpcode = false := by
  have h := forLoop_not_unknownOpcode _ (drawRow_not_unknownOpcode x y) (List.range height)
    { c with registers := setAt c.registers 0xF 0 }
  cases hb : forLoop (drawRow x y) (List.range height)
      { c with registers := setAt c.registers 0xF 0 } with
  | ok c1 =>
    simp only [Chip8.drawSprite, hb]
    rfl
  | panic k c1 =>
    rw [hb] at h
    simp only [Chip8.drawSprite, hb]
    exact h

theorem storeRegister_not_unknownOpcode (i : Nat) (c : Chip8) :
    (storeRegister i c).isUnknownOpcode = false := by
  simp only [storeRegister]
  split_ifs <;> rfl

theorem loadRegister_not_unknownOpcode (i : Nat) (c : Chip8) :
    (loadRegister i c).isUnknownOpcode = false := by
  simp only [loadRegister]
  split_ifs <;> rfl

/-! ## Unknown opcodes -/

theorem execAlu_unknown_iff (s : Chip8) (op : Nat) :
    (op % 16 ≤ 7 ∨ op % 16 = 0xE → (execAlu s op).isUnknownOpcode = false) ∧
    (¬ (op % 16 ≤ 7 ∨ op % 16 = 0xE) → execAlu s op = .panic .unknownOpcode s) := by
  have hd : op % 16 < 16 := Nat.mod_lt _ (by decide)
  simp only [execAlu, and_000F]
  generalize op % 16 = d at hd
  interval_cases d <;> simp [Exec.isUnknownOpcode]

theorem execMisc_unknown_iff (s : Chip8) (op : Nat) :
    ([0x07, 0x0A, 0x15, 0x18, 0x1E, 0x29, 0x33, 0x55, 0x65].contains (op % 256) = true →
      (execMisc s op).isUnknownOpcode = false) ∧
    ([0x07, 0x0A, 0x15, 0x18, 0x1E, 0x29, 0x33, 0x55, 0x65].contains (op % 256) = false →
      execMisc s op = .panic .unknownOpcode s) := by
  simp only [execMisc, and_00FF]
  constructor
  · intro h
    simp only [List.contains_cons, List.contains_nil, Bool.or_false, Bool.or_eq_true,
      beq_iff_eq] at h
    rcases h with h | h | h | h | h | h | h | h | h <;> rw [h] <;>
      simp only [Nat.reduceEqDiff, if_true, if_false]
    any_goals rfl
    · cases (List.range keypadSize).find? (fun i => s.keypad i != 0) <;> rfl
    · split_ifs <;> rfl
    · exact forLoop_not_unknownOpcode _ storeRegister_not_unknownOpcode _ _
    · exact forLoop_not_unknownOpcode _ loadRegister_not_unknownOpcode _ _
  · intro h
    simp only [List.contains_cons, List.contains_nil, Bool.or_false, Bool.or_eq_false_iff,
      beq_eq_false_iff_ne, ne_eq] at h
    obtain ⟨h1, h2, h3, h4, h5, h6, h7, h8, h9⟩ := h
    simp only [h1, h2, h3, h4, h5, h6, h7, h8, h9, if_false]

/-- Which words end in `panic("Unknown opcode")`: those that match no row of
the instruction table and are not of the form 5XYN, 9XYN, 0XE0 or 0XEE; the
machine is then unchanged. Every other word never ends in that panic. -/
theorem unknown_opcode_panic_iff (rnd : Nat) (s : Chip8) (op : Nat) :
    (inInstructionTable op = false ∧ matchesIgnoringUnusedNibble op = false →
      s.decodeAndExecuteOpcode rnd op = .panic .unknownOpcode s) ∧
    (inInstructionTable op = true ∨ matchesIgnoringUnusedNibble op = true →
      (s.decodeAndExecuteOpcode rnd op).isUnknownOpcode = false) := by
  have ha : op / 4096 % 16 < 16 := Nat.mod_lt _ (by decide)
  have halu := execAlu_unknown_iff s op
  have hmisc := execMisc_unknown_iff s op
  generalize hA : op / 4096 % 16 = a at ha
  interval_cases a
  case «8» =>
    rw [exec_8XYN rnd s op hA]
    simp only [inInstructionTable, matchesIgnoringUnusedNibble, hA]
    simp
    exact ⟨fun h1 h2 => halu.2 (by omega), halu.1⟩
  case «15» =>
    rw [exec_FXNN rnd s op hA]
    simp only [inInstructionTable, matchesIgnoringUnusedNibble, hA]
    simp only [Nat.reduceEqDiff, if_false, false_or, Bool.or_false, Bool.false_or]
    simp at hmisc ⊢
    exact ⟨hmisc.2, hmisc.1⟩
  case «13» =>
    simp [Chip8.decodeAndExecuteOpcode, and_F000, hA, inInstructionTable,
      drawSprite_not_unknownOpcode]
  all_goals
    simp only [Chip8.decodeAndExecuteOpcode, and_F000, and_00FF, hA, inInstructionTable,
      matchesIgnoringUnusedNibble]
    simp
    try split_ifs
    all_goals
      clear halu hmisc
      simp_all [Exec.isUnknownOpcode]
      try omega

/-- C8 as stated fails: 0x5001 and 0x01E0 match no row of the table, yet the
first runs as the skip 5XY0 (here taken, the program counter moves from 0 to
2) and the second as the clear-screen 00E0 (the redraw flag goes from false to
true); neither is reported as unknown. -/
theorem unknown_opcode_counterexample :
    inInstructionTable 0x5001 = false ∧
    (Chip8.zero.decodeAndExecuteOpcode 0 0x5001).isUnknownOpcode = false ∧
    (Chip8.zero.decodeAndExecuteOpcode 0 0x5001).chip.pc = 2 ∧
    inInstructionTable 0x01E0 = false ∧
    (Chip8.zero.decodeAndExecuteOpcode 0 0x01E0).isUnknownOpcode = false ∧
    (Chip8.zero.decodeAndExecuteOpcode 0 0x01E0).chip.drawFlag = true ∧
    Chip8.zero.drawFlag = false := by
  decide

/-! ## The program counter -/

theorem execAlu_pc (s t : Chip8) (op : Nat) (h : execAlu s op = .ok t) : t.pc = s.pc := by
  have hd : op % 16 < 16 := Nat.mod_lt _ (by decide)
  simp only [execAlu, and_000F] at h
  generalize op % 16 = d at hd h
  interval_cases d <;> simp only [Nat.reduceEqDiff, if_true, if_false, Exec.ok.injEq] at h
  all_goals first
    | (cases h; rfl)
    | cases h

theorem storeRegister_pc (i : Nat) (c c1 : Chip8) (h : storeRegister i c = .ok c1) :
    c1.pc = c.pc := by
  simp only [storeRegister] at h
  split_ifs at h
  cases h
  rfl

theorem loadRegister_pc (i : Nat) (c c1 : Chip8) (h : loadRegister i c = .ok c1) :
    c1.pc = c.pc := by
  simp only [loadRegister] at h
  split_ifs at h
  cases h
  rfl

theorem execMisc_pc (s t : Chip8) (op : Nat) (h : execMisc s op = .ok t) : t.pc = s.pc := by
  simp only [execMisc, and_00FF] at h
  have hcase : op % 256 = 0x07 ∨ op % 256 = 0x0A ∨ op % 256 = 0x15 ∨ op % 256 = 0x18 ∨
      op % 256 = 0x1E ∨ op % 256 = 0x29 ∨ op % 256 = 0x33 ∨ op % 256 = 0x55 ∨
      op % 256 = 0x65 ∨
      (op % 256 ≠ 0x07 ∧ op % 256 ≠ 0x0A ∧ op % 256 ≠ 0x15 ∧ op % 256 ≠ 0x18 ∧
        op % 256 ≠ 0x1E ∧ op % 256 ≠ 0x29 ∧ op % 256 ≠ 0x33 ∧ op % 256 ≠ 0x55 ∧
        op % 256 ≠ 0x65) := by omega
  rcases hcase with h1 | h1 | h1 | h1 | h1 | h1 | h1 | h1 | h1 | ⟨h1, h2, h3, h4, h5, h6, h7, h8, h9⟩
  · rw [h1] at h; simp only [Nat.reduceEqDiff, if_true, if_false] at h
    cases h; rfl
  · rw [h1] at h; simp only [Nat.reduceEqDiff, if_true, if_false] at h
    cases hk : (List.range keypadSize).find? (fun i => s.keypad i != 0) <;>
      rw [hk] at h <;> cases h <;> rfl
  · rw [h1] at h; simp only [Nat.reduceEqDiff, if_true, if_false] at h
    cases h; rfl
  · rw [h1] at h; simp only [Nat.reduceEqDiff, if_true, if_false] at h
    cases h; rfl
  · rw [h1] at h; simp only [Nat.reduceEqDiff, if_true, if_false] at h
    cases h; rfl
  · rw [h1] at h; simp only [Nat.reduceEqDiff, if_true, if_false] at h
    cases h; rfl
  · rw [h1] at h; simp only [Nat.reduceEqDiff, if_true, if_false] at h
    split_ifs at h
    all_goals cases h
    rfl
  · rw [h1] at h; simp only [Nat.reduceEqDiff, if_true, if_false] at h
    exact forLoop_ok_invariant storeRegister (fun c => c.pc = s.pc)
      (fun i c c1 hc hb => (storeRegister_pc i c c1 hb).trans hc) _ s t rfl h
  · rw [h1] at h; simp only [Nat.reduceEqDiff, if_true, if_false] at h
    exact forLoop_ok_invariant loadRegister (fun c => c.pc = s.pc)
      (fun i c c1 hc hb => (loadRegister_pc i c c1 hb).trans hc) _ s t rfl h
  · simp only [h1, h2, h3, h4, h5, h6, h7, h8, h9, if_false] at h
    cases h

theorem drawPixel_pc (x y yline pixel xline : Nat) (c c1 : Chip8)
    (h : drawPixel x y yline pixel xline c = .ok c1) : c1.pc = c.pc := by
  simp only [drawPixel] at h
  split_ifs at h <;> cases h <;> rfl

theorem drawRow_pc (x y yline : Nat) (c c1 : Chip8) (h : drawRow x y yline c = .ok c1) :
    c1.pc = c.pc := by
  simp only [drawRow] at h
  split_ifs at h
  exact forLoop_ok_invariant _ (fun d => d.pc = c.pc)
    (fun i d d1 hd hb => (drawPixel_pc x y yline _ i d d1 hb).trans hd) _ c c1 rfl h

theorem drawSprite_pc (s t : Chip8) (x y height : Nat) (h : s.drawSprite x y height = .ok t) :
    t.pc = s.pc := by
  simp only [Chip8.drawSprite] at h
  cases hb : forLoop (drawRow x y) (List.range height)
      { s with registers := setAt s.registers 0xF 0 } with
  | ok c1 =>
    rw [hb] at h
    cases h
    exact forLoop_ok_invariant _ (fun d => d.pc = s.pc)
      (fun i d d1 hd hd1 => (drawRow_pc x y i d d1 hd1).trans hd) _
      { s with registers := setAt s.registers 0xF 0 } c1 rfl hb
  | panic k c1 =>
    rw [hb] at h
    cases h

/-- C9, as the code has it. For every opcode of the instruction table that is
not a jump, call or return and that `decodeAndExecuteOpcode` executes
successfully, the program counter afterwards is the old one plus 2 (as a
`uint16`) when the opcode is a skip whose condition holds, and the old one,
unchanged, otherwise: the method itself never performs the default advance. -/
theorem pc_after_non_jump (rnd : Nat) (s t : Chip8) (op : Nat)
    (htab : inInstructionTable op = true) (hj : isJumpCallReturn op = false)
    (hok : s.decodeAndExecuteOpcode rnd op = .ok t) :
    t.pc = if skipConditionHolds s op = true then (s.pc + 2) % 65536 else s.pc := by
  have ha : op / 4096 % 16 < 16 := Nat.mod_lt _ (by decide)
  generalize hA : op / 4096 % 16 = a at ha
  interval_cases a
  case «8» =>
    rw [exec_8XYN rnd s op hA] at hok
    simp [skipConditionHolds, hA, execAlu_pc s t op hok]
  case «15» =>
    rw [exec_FXNN rnd s op hA] at hok
    simp [skipConditionHolds, hA, execMisc_pc s t op hok]
  case «13» =>
    simp only [Chip8.decodeAndExecuteOpcode, and_F000, hA] at hok
    simp at hok
    simp [skipConditionHolds, hA, drawSprite_pc s t _ _ _ hok]
  all_goals
    simp only [Chip8.decodeAndExecuteOpcode, and_F000, and_00FF, and_0F00_shift, and_00F0_shift,
      hA] at hok
    simp only [inInstructionTable, isJumpCallReturn, skipConditionHolds, hA] at htab hj ⊢
    simp at hok htab hj ⊢
    try split_ifs at hok
    all_goals first
      | omega
      | (cases hok; simp_all)

/-- Witness for C9: from `pc = 0x200` the skip 0x3000 (`reg[0] == 0` holds)
leaves `pc = 0x202`. -/
theorem pc_after_non_jump_witness :
    ({ Chip8.zero with pc := 0x202 } : Chip8).pc =
      if skipConditionHolds { Chip8.zero with pc := 0x200 } 0x3000 = true then
        (({ Chip8.zero with pc := 0x200 } : Chip8).pc + 2) % 65536
      else ({ Chip8.zero with pc := 0x200 } : Chip8).pc :=
  pc_after_non_jump 0 { Chip8.zero with pc := 0x200 } { Chip8.zero with pc := 0x202 } 0x3000
    (by decide) (by decide) (by rfl)

/-- C9 as stated fails: 6XNN (here 0x6005, on the zero machine) is executed
successfully, is no skip, jump, call or return, and leaves the program counter
at 0, not at 0 + 2; the skip 0x3000, whose condition `reg[0] == 0` holds, leaves
it at 2, not at 0 + 4. -/
theorem pc_after_non_jump_counterexample :
    inInstructionTable 0x6005 = true ∧ isJumpCallReturn 0x6005 = false ∧
    skipConditionHolds Chip8.zero 0x6005 = false ∧
    (Chip8.zero.decodeAndExecuteOpcode 0 0x6005).isOk = true ∧
    (Chip8.zero.decodeAndExecuteOpcode 0 0x6005).chip.pc = 0 ∧
    (Chip8.zero.decodeAndExecuteOpcode 0 0x6005).chip.pc ≠ Chip8.zero.pc + 2 ∧
    skipConditionHolds Chip8.zero 0x3000 = true ∧
    (Chip8.zero.decodeAndExecuteOpcode 0 0x3000).isOk = true ∧
    (Chip8.zero.decodeAndExecuteOpcode 0 0x3000).chip.pc = 2 ∧
    (Chip8.zero.decodeAndExecuteOpcode 0 0x3000).chip.pc ≠ Chip8.zero.pc + 4 := by
  decide

/-! ## Address registers -/

theorem exec_1NNN (rnd : Nat) (s : Chip8) (op : Nat) (h : op / 4096 % 16 = 1) :
    s.decodeAndExecuteOpcode rnd op = .ok { s with pc := op % 4096 } := by
  simp [Chip8.decodeAndExecuteOpcode, and_F000, and_0FFF, h]

theorem exec_ANNN (rnd : Nat) (s : Chip8) (op : Nat) (h : op / 4096 % 16 = 10) :
    s.decodeAndExecuteOpcode rnd op = .ok { s with index := op % 4096 } := by
  simp [Chip8.decodeAndExecuteOpcode, and_F000, and_0FFF, h]

theorem exec_BNNN (rnd : Nat) (s : Chip8) (op : Nat) (h : op / 4096 % 16 = 11) :
    s.decodeAndExecuteOpcode rnd op =
      .ok { s with pc := (op % 4096 + s.registers 0) % 65536 } := by
  simp [Chip8.decodeAndExecuteOpcode, and_F000, and_0FFF, h]

theorem exec_FX1E (rnd : Nat) (s : Chip8) (op : Nat) (h : op / 4096 % 16 = 15)
    (hlow : op % 256 = 0x1E) :
    s.decodeAndExecuteOpcode rnd op =
      .ok { s with index := (s.index + s.registers (op / 256 % 16)) % 65536 } := by
  rw [exec_FXNN rnd s op h]
  simp [execMisc, and_00FF, and_0F00_shift, hlow]

theorem exec_FX29 (rnd : Nat) (s : Chip8) (op : Nat) (h : op / 4096 % 16 = 15)
    (hlow : op % 256 = 0x29) :
    s.decodeAndExecuteOpcode rnd op =
      .ok { s with index := (s.registers (op / 256 % 16) * 0x5) % 65536 } := by
  rw [exec_FXNN rnd s op h]
  simp [execMisc, and_00FF, and_0F00_shift, hlow]

/-- C10, as the code has it. From a state whose index and program counter are
at most 0x0FFF: 1NNN, 2NNN and ANNN assign `NNN`, and FX29 assigns
`reg[X] * 5`, all at most 0x0FFF; FX1E leaves `index = old index + reg[X]` and
BNNN leaves `pc = NNN + reg[0]`, not reduced modulo 4096, so these two can
reach 0x10FE. -/
theorem address_assignments (rnd : Nat) (s : Chip8) (NNN X : Nat) (hs : s.WellFormed)
    (hidx : s.index ≤ 0x0FFF) (hN : NNN < 4096) (hX : X < 16) :
    (∃ t, s.decodeAndExecuteOpcode rnd (0x1000 + NNN) = .ok t ∧ t.pc = NNN ∧ t.pc ≤ 0x0FFF) ∧
    (s.sp < 16 →
      ∃ t, s.decodeAndExecuteOpcode rnd (0x2000 + NNN) = .ok t ∧ t.pc = NNN ∧ t.pc ≤ 0x0FFF) ∧
    (∃ t, s.decodeAndExecuteOpcode rnd (0xA000 + NNN) = .ok t ∧
      t.index = NNN ∧ t.index ≤ 0x0FFF) ∧
    (∃ t, s.decodeAndExecuteOpcode rnd (0xF029 + X * 0x100) = .ok t ∧
      t.index = s.registers X * 5 ∧ t.index ≤ 0x0FFF) ∧
    (∃ t, s.decodeAndExecuteOpcode rnd (0xF01E + X * 0x100) = .ok t ∧
      t.index = s.index + s.registers X ∧ t.index ≤ 0x10FE) ∧
    (∃ t, s.decodeAndExecuteOpcode rnd (0xB000 + NNN) = .ok t ∧
      t.pc = NNN + s.registers 0 ∧ t.pc ≤ 0x10FE) := by
  have hrX := hs.registers_lt X hX
  have hr0 := hs.registers_lt 0 (by decide)
  refine ⟨⟨_, exec_1NNN rnd s _ (by omega), ?_, ?_⟩,
    fun hsp => ⟨_, exec_2NNN rnd s _ (by omega) hsp, ?_, ?_⟩,
    ⟨_, exec_ANNN rnd s _ (by omega), ?_, ?_⟩,
    ⟨_, exec_FX29 rnd s _ (by omega) (by omega), ?_, ?_⟩,
    ⟨_, exec_FX1E rnd s _ (by omega) (by omega), ?_, ?_⟩,
    ⟨_, exec_BNNN rnd s _ (by omega), ?_, ?_⟩⟩
  all_goals simp only []
  any_goals omega
  · have hx : (0xF029 + X * 0x100) / 256 % 16 = X := by omega
    rw [hx, Nat.mod_eq_of_lt (by omega)]
  · have hx : (0xF029 + X * 0x100) / 256 % 16 = X := by omega
    rw [hx, Nat.mod_eq_of_lt (by omega)]
    omega
  · have hx : (0xF01E + X * 0x100) / 256 % 16 = X := by omega
    rw [hx]
    omega
  · have hx : (0xF01E + X * 0x100) / 256 % 16 = X := by omega
    rw [hx]
    omega

/-- Witness for C10: with `index = 0x0FFF` and `reg[0] = 1`, 0xF01E leaves
`index = 0x1000` and 0xBFFF leaves `pc = 0x1000`, while 0x1ABC, 0x2ABC, 0xAABC
and 0xF029 stay within 0x0FFF. -/
theorem address_assignments_witness :
    (∃ t, ({ Chip8.withRegisters [1] with index := 0x0FFF } : Chip8).decodeAndExecuteOpcode 0
        (0xF01E + 0 * 0x100) = .ok t ∧ t.index = 0x1000) ∧
    (∃ t, ({ Chip8.withRegisters [1] with index := 0x0FFF } : Chip8).decodeAndExecuteOpcode 0
        (0xB000 + 0xFFF) = .ok t ∧ t.pc = 0x1000) := by
  have hwf : ({ Chip8.withRegisters [1] with index := 0x0FFF } : Chip8).WellFormed :=
    { withRegisters_wellFormed [1] (by decide) with index_lt := by decide }
  obtain ⟨-, -, -, -, ⟨t, ht, hi, -⟩, ⟨u, hu, hp, -⟩⟩ :=
    address_assignments 0 { Chip8.withRegisters [1] with index := 0x0FFF } 0xFFF 0 hwf
      (by decide) (by decide) (by decide)
  exact ⟨⟨t, ht, by simpa [Chip8.withRegisters] using hi⟩,
    ⟨u, hu, by simpa [Chip8.withRegisters] using hp⟩⟩

/-- C10 as stated fails: from `index = 0x0FFF`, `pc = 0`, `reg[0] = 1`, opcode
0xF01E leaves `index = 0x1000`, which exceeds 0x0FFF and is not
`(0x0FFF + 1) mod 4096 = 0`; opcode 0xBFFF leaves `pc = 0x1000`, not
`(0xFFF + 1) mod 4096 = 0`. -/
theorem address_assignments_counterexample :
    ({ Chip8.withRegisters [1] with index := 0x0FFF } : Chip8).index ≤ 0x0FFF ∧
    ({ Chip8.withRegisters [1] with index := 0x0FFF } : Chip8).pc ≤ 0x0FFF ∧
    (({ Chip8.withRegisters [1] with index := 0x0FFF } : Chip8).decodeAndExecuteOpcode 0
      0xF01E).isOk = true ∧
    (({ Chip8.withRegisters [1] with index := 0x0FFF } : Chip8).decodeAndExecuteOpcode 0
      0xF01E).chip.index = 0x1000 ∧
    ¬ (({ Chip8.withRegisters [1] with index := 0x0FFF } : Chip8).decodeAndExecuteOpcode 0
      0xF01E).chip.index ≤ 0x0FFF ∧
    (({ Chip8.withRegisters [1] with index := 0x0FFF } : Chip8).decodeAndExecuteOpcode 0
      0xF01E).chip.index ≠ (0x0FFF + 1) % 4096 ∧
    (({ Chip8.withRegisters [1] with index := 0x0FFF } : Chip8).decodeAndExecuteOpcode 0
      0xBFFF).isOk = true ∧
    (({ Chip8.withRegisters [1] with index := 0x0FFF } : Chip8).decodeAndExecuteOpcode 0
      0xBFFF).chip.pc = 0x1000 ∧
    (({ Chip8.withRegisters [1] with index := 0x0FFF } : Chip8).decodeAndExecuteOpcode 0
      0xBFFF).chip.pc ≠ (0xFFF + 1) % 4096 := by
  decide

/-! ## Sprite drawing -/

theorem forLoop_append (body : Nat → Chip8 → Exec) (l1 l2 : List Nat) (c : Chip8) :
    forLoop body (l1 ++ l2) c =
      match forLoop body l1 c with
      | .ok c1 => forLoop body l2 c1
      | .panic k c1 => .panic k c1 := by
  induction l1 generalizing c with
  | nil => rfl
  | cons i is ih =>
    simp only [List.cons_append, forLoop]
    cases body i c with
    | ok c1 => exact ih c1
    | panic k c1 => rfl

theorem forLoop_range_succ (body : Nat → Chip8 → Exec) (n : Nat) (c t : Chip8)
    (h : forLoop body (List.range n) c = .ok t) :
    forLoop body (List.range (n + 1)) c = body n t := by
  rw [List.range_succ, forLoop_append, h]
  simp only [forLoop]
  cases body n t <;> rfl

theorem drawPixel_loop (x y yline pixel : Nat) (c : Chip8) (k : Nat)
    (hb : ∀ col, col < k → x + col + (y + yline) * 64 < displaySize) :
    ∃ t, forLoop (drawPixel x y yline pixel) (List.range k) c = .ok t ∧
      RowDrawn x y yline pixel k c t := by
  induction k with
  | zero =>
    refine ⟨c, rfl, ⟨rfl, fun _ _ => rfl, ?_, fun _ _ => rfl, ?_, fun _ => rfl⟩⟩
    · rintro j ⟨col, hc, -⟩
      omega
    · rintro ⟨col, hc, -⟩
      omega
  | succ k ih =>
    obtain ⟨t, ht, inv⟩ := ih (fun col hc => hb col (by omega))
    rw [forLoop_range_succ _ k c t ht]
    have hpos := hb k (by omega)
    have hcur : t.display (x + k + (y + yline) * 64) = c.display (x + k + (y + yline) * 64) := by
      apply inv.display_miss
      rintro ⟨col, hc, -, he⟩
      omega
    by_cases hbit : pixel &&& (0x80 >>> k) ≠ 0
    · simp only [drawPixel, hbit, hpos, if_true, ne_eq, not_false_eq_true]
      refine ⟨_, rfl, ⟨?_, ?_, ?_, ?_, ?_, ?_⟩⟩
      · rw [inv.frame]
      · intro j hj
        simp only []
        split_ifs
        · simp only [setAt, hj, if_false]
          exact inv.registers_other j hj
        · exact inv.registers_other j hj
      · rintro j ⟨col, hc, hm, he⟩
        simp only [setAt]
        by_cases hk : col = k
        · subst hk
          simp [he, hcur]
        · have hne : j ≠ x + k + (y + yline) * 64 := by omega
          simp only [hne, if_false]
          exact inv.display_hit j ⟨col, by omega, hm, he⟩
      · intro j hj
        have hne : j ≠ x + k + (y + yline) * 64 := by
          intro he
          exact hj ⟨k, by omega, hbit, he⟩
        simp only [setAt, hne, if_false]
        apply inv.display_miss
        rintro ⟨col, hc, hm, he⟩
        exact hj ⟨col, by omega, hm, he⟩
      · rintro ⟨col, hc, hm, he⟩
        simp only []
        split_ifs with h1
        · simp [setAt]
        · apply inv.flag_set
          refine ⟨col, ?_, hm, he⟩
          by_contra hcon
          have : col = k := by omega
          subst this
          exact h1 (hcur.trans he)
      · intro hno
        simp only []
        have h1 : ¬ t.display (x + k + (y + yline) * 64) = 1 := by
          intro h1
          exact hno ⟨k, by omega, hbit, hcur ▸ h1⟩
        simp only [h1, if_false]
        apply inv.flag_kept
        rintro ⟨col, hc, hm, he⟩
        exact hno ⟨col, by omega, hm, he⟩
    · simp only [drawPixel, hbit, if_false]
      refine ⟨t, rfl, ⟨inv.frame, inv.registers_other, ?_, ?_, ?_, ?_⟩⟩
      · rintro j ⟨col, hc, hm, he⟩
        apply inv.display_hit
        refine ⟨col, ?_, hm, he⟩
        by_contra hcon
        have : col = k := by omega
        subst this
        exact hbit hm
      · intro j hj
        apply inv.display_miss
        rintro ⟨col, hc, hm, he⟩
        exact hj ⟨col, by omega, hm, he⟩
      · rintro ⟨col, hc, hm, he⟩
        apply inv.flag_set
        refine ⟨col, ?_, hm, he⟩
        by_contra hcon
        have : col = k := by omega
        subst this
        exact hbit hm
      · intro hno
        apply inv.flag_kept
        rintro ⟨col, hc, hm, he⟩
        exact hno ⟨col, by omega, hm, he⟩

theorem frame_trans (c t u : Chip8)
    (h1 : t = { c with registers := t.registers, display := t.display })
    (h2 : u = { t with registers := u.registers, display := u.display }) :
    u = { c with registers := u.registers, display := u.display } := by
  rw [h2, h1]

theorem drawRow_loop (x y : Nat) (c : Chip8) (m : Nat) (hmem : c.index + m ≤ memorySize)
    (hb : ∀ r col, r < m → col < 8 → x + col + (y + r) * 64 < displaySize) :
    ∃ t, forLoop (drawRow x y) (List.range m) c = .ok t ∧ SpriteDrawn x y m c t := by
  induction m with
  | zero =>
    refine ⟨c, rfl, ⟨rfl, fun _ _ => rfl, ?_, fun _ _ => rfl, ?_, fun _ => rfl⟩⟩
    · rintro j ⟨r, col, hr, -⟩
      omega
    · rintro ⟨r, col, hr, -⟩
      omega
  | succ m ih =>
    obtain ⟨t, ht, inv⟩ := ih (by omega) (fun r col hr hc => hb r col (by omega) hc)
    rw [forLoop_range_succ _ m c t ht]
    have hidx : t.index = c.index := by rw [inv.frame]
    have hmemEq : t.memory = c.memory := by rw [inv.frame]
    have hms : memorySize = 4096 := rfl
    have haddr : (t.index + m) % 65536 = c.index + m := by
      rw [hidx]
      omega
    have hin : c.index + m < memorySize := by omega
    obtain ⟨u, hu, row⟩ := drawPixel_loop x y m (c.memory (c.index + m)) t 8
      (fun col hc => hb m col (by omega) hc)
    have hcur : ∀ col, col < 8 →
        t.display (x + col + (y + m) * 64) = c.display (x + col + (y + m) * 64) := by
      intro col hc
      apply inv.display_miss
      rintro ⟨r, col2, hr, hc2, -, he⟩
      omega
    refine ⟨u, ?_, ⟨frame_trans c t u inv.frame row.frame, ?_, ?_, ?_, ?_, ?_⟩⟩
    · simp only [drawRow, haddr, hin, if_true, hmemEq]
      exact hu
    · intro j hj
      rw [row.registers_other j hj, inv.registers_other j hj]
    · rintro j ⟨r, col, hr, hc, hm, he⟩
      by_cases hrm : r = m
      · subst hrm
        rw [row.display_hit j ⟨col, hc, hm, he⟩, he, hcur col hc]
      · have hmiss : ¬ (∃ col2, col2 < 8 ∧ c.memory (c.index + m) &&& (0x80 >>> col2) ≠ 0 ∧
            j = x + col2 + (y + m) * 64) := by
          rintro ⟨col2, hc2, -, he2⟩
          omega
        rw [row.display_miss j hmiss]
        exact inv.display_hit j ⟨r, col, by omega, hc, hm, he⟩
    · intro j hj
      have hmiss : ¬ (∃ col2, col2 < 8 ∧ c.memory (c.index + m) &&& (0x80 >>> col2) ≠ 0 ∧
          j = x + col2 + (y + m) * 64) := by
        rintro ⟨col2, hc2, hm2, he2⟩
        exact hj ⟨m, col2, by omega, hc2, hm2, he2⟩
      rw [row.display_miss j hmiss]
      apply inv.display_miss
      rintro ⟨r, col, hr, hc, hm, he⟩
      exact hj ⟨r, col, by omega, hc, hm, he⟩
    · rintro ⟨r, col, hr, hc, hm, he⟩
      by_cases hrow : ∃ col2, col2 < 8 ∧ c.memory (c.index + m) &&& (0x80 >>> col2) ≠ 0 ∧
          t.display (x + col2 + (y + m) * 64) = 1
      · exact row.flag_set hrow
      · rw [row.flag_kept hrow]
        apply inv.flag_set
        refine ⟨r, col, ?_, hc, hm, he⟩
        by_contra hcon
        have : r = m := by omega
        subst this
        exact hrow ⟨col, hc, hm, (hcur col hc).trans he⟩
    · intro hno
      have hrow : ¬ (∃ col2, col2 < 8 ∧ c.memory (c.index + m) &&& (0x80 >>> col2) ≠ 0 ∧
          t.display (x + col2 + (y + m) * 64) = 1) := by
        rintro ⟨col2, hc2, hm2, he2⟩
        exact hno ⟨m, col2, by omega, hc2, hm2, (hcur col2 hc2).symm.trans he2⟩
      rw [row.flag_kept hrow]
      apply inv.flag_kept
      rintro ⟨r, col, hr, hc, hm, he⟩
      exact hno ⟨r, col, by omega, hc, hm, he⟩

theorem and_two_pow_ne_zero_iff (p k : Nat) : p &&& 2 ^ k ≠ 0 ↔ p.testBit k = true := by
  constructor
  · intro h
    by_contra hb
    apply h
    apply Nat.eq_of_testBit_eq
    intro i
    simp only [Nat.testBit_and, Nat.testBit_two_pow, Nat.zero_testBit]
    by_cases hik : k = i
    · subst hik
      simp [hb]
    · simp [hik]
  · intro hb h
    have := congrArg (fun n => n.testBit k) h
    simp [Nat.testBit_and, Nat.testBit_two_pow, hb] at this

theorem mask_ne_zero_iff (p col : Nat) (h : col < 8) :
    p &&& (0x80 >>> col) ≠ 0 ↔ p.testBit (7 - col) = true := by
  have : 0x80 >>> col = 2 ^ (7 - col) := by
    interval_cases col <;> rfl
  rw [this]
  exact and_two_pow_ne_zero_iff p (7 - col)

theorem drawSprite_effect (s : Chip8) (x y height : Nat)
    (hmem : s.index + height ≤ memorySize)
    (hb : ∀ r col, r < height → col < 8 → x + col + (y + r) * 64 < displaySize) :
    ∃ t, s.drawSprite x y height = .ok t ∧ DrawEffect x y height s t := by
  obtain ⟨t, ht, inv⟩ := drawRow_loop x y { s with registers := setAt s.registers 0xF 0 }
    height hmem hb
  refine ⟨{ t with drawFlag := true }, ?_, ⟨?_, ?_, ?_, ?_, ?_, ?_⟩⟩
  · simp only [Chip8.drawSprite, ht]
  · have h := inv.frame
    simp only [] at h ⊢
    rw [h]
  · intro j hj
    have h := inv.registers_other j hj
    simp only [setAt, hj, if_false] at h
    exact h
  · intro r col hr hc hbit
    exact inv.display_hit _ ⟨r, col, hr, hc, (mask_ne_zero_iff _ col hc).2 hbit, rfl⟩
  · intro j hj
    apply inv.display_miss
    rintro ⟨r, col, hr, hc, hm, he⟩
    exact hj ⟨r, col, hr, hc, (mask_ne_zero_iff _ col hc).1 hm, he⟩
  · rintro ⟨r, col, hr, hc, hbit, he⟩
    exact inv.flag_set ⟨r, col, hr, hc, (mask_ne_zero_iff _ col hc).2 hbit, he⟩
  · intro hno
    have h := inv.flag_kept (by
      rintro ⟨r, col, hr, hc, hm, he⟩
      exact hno ⟨r, col, hr, hc, (mask_ne_zero_iff _ col hc).1 hm, he⟩)
    simpa [setAt] using h

theorem exec_DXYN (rnd : Nat) (s : Chip8) (op : Nat) (h : op / 4096 % 16 = 13) :
    s.decodeAndExecuteOpcode rnd op =
      s.drawSprite (s.registers (op / 256 % 16)) (s.registers (op / 16 % 16)) (op % 16) := by
  have h16 : op % 16 % 256 = op % 16 := by omega
  simp [Chip8.decodeAndExecuteOpcode, and_F000, and_0F00_shift, and_00F0_shift, and_000F, h, h16]

/-- C6. For `X`, `Y` other than `0xF` and a sprite of height `N` that lies
inside memory and inside the display buffer, executing the same DXYN twice
returns normally both times and restores the display buffer; if the pixels
under the set sprite bits were all 0 beforehand, the first draw leaves
`reg[0xF] = 0` and, when the sprite has a set bit, the second leaves
`reg[0xF] = 1`. -/
theorem draw_twice_restores (rnd1 rnd2 : Nat) (s : Chip8) (X Y N : Nat)
    (hX : X < 15) (hY : Y < 15) (hN : N < 16) (hmem : s.index + N ≤ 4096)
    (hfit : N = 0 ∨ s.registers X + 7 + (s.registers Y + N - 1) * 64 < 2048) :
    ∃ t u, s.decodeAndExecuteOpcode rnd1 (0xD000 + X * 0x100 + Y * 0x10 + N) = .ok t ∧
      t.decodeAndExecuteOpcode rnd2 (0xD000 + X * 0x100 + Y * 0x10 + N) = .ok u ∧
      u.display = s.display ∧
      ((∀ r col, r < N → col < 8 → spriteBit s r col = true →
          s.display (s.registers X + col + (s.registers Y + r) * 64) = 0) →
        t.registers 0xF = 0 ∧
        ((∃ r col, r < N ∧ col < 8 ∧ spriteBit s r col = true) → u.registers 0xF = 1)) := by
  have hf : (0xD000 + X * 0x100 + Y * 0x10 + N) / 4096 % 16 = 13 := by omega
  have hx : (0xD000 + X * 0x100 + Y * 0x10 + N) / 256 % 16 = X := by omega
  have hy : (0xD000 + X * 0x100 + Y * 0x10 + N) / 16 % 16 = Y := by omega
  have hn : (0xD000 + X * 0x100 + Y * 0x10 + N) % 16 = N := by omega
  have hb : ∀ r col, r < N → col < 8 →
      s.registers X + col + (s.registers Y + r) * 64 < displaySize := by
    intro r col hr hc
    have hds : displaySize = 2048 := rfl
    rcases hfit with h0 | h1
    · omega
    · have : (s.registers Y + r) * 64 ≤ (s.registers Y + N - 1) * 64 :=
        Nat.mul_le_mul_right 64 (by omega)
      omega
  obtain ⟨t, ht, e1⟩ := drawSprite_effect s (s.registers X) (s.registers Y) N hmem hb
  have htX : t.registers X = s.registers X := e1.registers_other X (by omega)
  have htY : t.registers Y = s.registers Y := e1.registers_other Y (by omega)
  have htidx : t.index = s.index := by rw [e1.frame]
  have htmem : t.memory = s.memory := by rw [e1.frame]
  have hbitEq : ∀ r col, spriteBit t r col = spriteBit s r col := by
    intro r col
    simp only [spriteBit, htidx, htmem]
  obtain ⟨u, hu, e2⟩ := drawSprite_effect t (s.registers X) (s.registers Y) N
    (by rw [htidx]; exact hmem) hb
  refine ⟨t, u, ?_, ?_, ?_, ?_⟩
  · rw [exec_DXYN rnd1 s _ hf, hx, hy, hn]
    exact ht
  · rw [exec_DXYN rnd2 t _ hf, hx, hy, hn, htX, htY]
    exact hu
  · funext j
    by_cases hj : ∃ r col, r < N ∧ col < 8 ∧ spriteBit s r col = true ∧
        j = s.registers X + col + (s.registers Y + r) * 64
    · obtain ⟨r, col, hr, hc, hbit, he⟩ := hj
      rw [he, e2.display_hit r col hr hc ((hbitEq r col).trans hbit),
        e1.display_hit r col hr hc hbit, Nat.xor_assoc, Nat.xor_self, Nat.xor_zero]
    · rw [e2.display_miss j (by simpa only [hbitEq] using hj), e1.display_miss j hj]
  · intro hzero
    constructor
    · apply e1.flag_clear
      rintro ⟨r, col, hr, hc, hbit, he⟩
      rw [hzero r col hr hc hbit] at he
      exact absurd he (by decide)
    · rintro ⟨r, col, hr, hc, hbit⟩
      apply e2.flag_set
      refine ⟨r, col, hr, hc, (hbitEq r col).trans hbit, ?_⟩
      rw [e1.display_hit r col hr hc hbit, hzero r col hr hc hbit]
      rfl

/-- Witness for C6: the one-row sprite `0xFF` at `memory[0]`, drawn twice at
`(0, 0)` by 0xD011 on a blank display, leaves the display blank again, with
flag 0 after the first draw and 1 after the second. -/
theorem draw_twice_restores_witness :
    ∃ t u, Chip8.withSolidRow.decodeAndExecuteOpcode 0 (0xD000 + 0 * 0x100 + 1 * 0x10 + 1)
        = .ok t ∧
      t.decodeAndExecuteOpcode 0 (0xD000 + 0 * 0x100 + 1 * 0x10 + 1) = .ok u ∧
      u.display = Chip8.withSolidRow.display ∧ t.registers 0xF = 0 ∧ u.registers 0xF = 1 := by
  obtain ⟨t, u, h1, h2, hd, hflag⟩ := draw_twice_restores 0 0 Chip8.withSolidRow 0 1 1
    (by decide) (by decide) (by decide) (by decide) (Or.inr (by decide))
  obtain ⟨hF1, hF2⟩ := hflag (fun _ _ _ _ _ => rfl)
  exact ⟨t, u, h1, h2, hd, hF1, hF2 ⟨0, 0, by decide, by decide, by decide⟩⟩

/-! ## Fetch -/

theorem byte_pair_big_endian (a b : Nat) (ha : a < 256) (hb : b < 256) :
    (a <<< 8) % 65536 ||| b = a * 256 + b := by
  have h1 : (a <<< 8) % 65536 = 2 ^ 8 * a := by
    rw [Nat.shiftLeft_eq]
    omega
  rw [h1, ← Nat.mul_add_lt_is_or (by omega) a]
  omega

/-- C11. With `pc + 1 <= 4095`, `fetchOpcode` returns
`memory[pc] * 256 + memory[pc+1]` (big-endian) and leaves the machine,
program counter included, as it was. -/
theorem fetchOpcode_big_endian (s : Chip8) (hs : s.WellFormed) (hpc : s.pc + 1 ≤ 4095) :
    s.fetchOpcode = some (s.memory s.pc * 256 + s.memory (s.pc + 1)) ∧
    s.fetchOpcodeCall = (s, some (s.memory s.pc * 256 + s.memory (s.pc + 1))) := by
  have h0 : s.pc < memorySize := by unfold memorySize; omega
  have h1 : (s.pc + 1) % 65536 = s.pc + 1 := by omega
  have h1m : s.pc + 1 < memorySize := by unfold memorySize; omega
  have hv : s.fetchOpcode = some (s.memory s.pc * 256 + s.memory (s.pc + 1)) := by
    simp only [Chip8.fetchOpcode, h1, h0, h1m, and_self, if_true]
    rw [byte_pair_big_endian _ _ (hs.memory_lt _ h0) (hs.memory_lt _ h1m)]
  exact ⟨hv, by rw [Chip8.fetchOpcodeCall, hv]⟩

theorem withProgramWord_wellFormed : Chip8.withProgramWord.WellFormed := by
  constructor <;> try (intros; simp [Chip8.withProgramWord, Chip8.zero]; done)
  intro i _
  simp only [Chip8.withProgramWord]
  split_ifs <;> decide

/-- Witness for C11: bytes `0x12`, `0x34` at `0x200`, `0x201` are fetched as
`0x1234`. -/
theorem fetchOpcode_big_endian_witness :
    Chip8.withProgramWord.fetchOpcode = some 0x1234 ∧
    Chip8.withProgramWord.fetchOpcodeCall = (Chip8.withProgramWord, some 0x1234) :=
  fetchOpcode_big_endian Chip8.withProgramWord withProgramWord_wellFormed (by decide)

/-! ## Initialization -/

theorem install_fonts_loop (s : Chip8) (n : Nat) :
    (List.range n).foldl
        (fun c i => { c with memory := setAt c.memory (0x50 + i) (fonts.getD i 0) }) s =
      { s with memory := fun a =>
          if 0x50 ≤ a ∧ a < 0x50 + n then fonts.getD (a - 0x50) 0 else s.memory a } := by
  induction n with
  | zero =>
    simp only [List.range_zero, List.foldl_nil]
    have : (fun a => if 0x50 ≤ a ∧ a < 0x50 + 0 then fonts.getD (a - 0x50) 0 else s.memory a)
        = s.memory := by
      funext a
      have : ¬ (0x50 ≤ a ∧ a < 0x50 + 0) := by omega
      simp only [this, if_false]
    rw [this]
  | succ n ih =>
    rw [List.range_succ, List.foldl_append, ih]
    simp only [List.foldl_cons, List.foldl_nil]
    congr 1
    funext a
    simp only [setAt]
    by_cases h : a = 0x50 + n
    · subst h
      have : 0x50 ≤ 0x50 + n ∧ 0x50 + n < 0x50 + (n + 1) := by omega
      simp only [this, and_self, if_true, Nat.add_sub_cancel_left]
    · by_cases h2 : 0x50 ≤ a ∧ a < 0x50 + n
      · have : 0x50 ≤ a ∧ a < 0x50 + (n + 1) := by omega
        simp only [h, h2, this, and_self, if_true, if_false]
      · have : ¬ (0x50 ≤ a ∧ a < 0x50 + (n + 1)) := by omega
        simp only [h, h2, this, if_false]

theorem initialize_eq (s : Chip8) :
    Chip8.initialize s =
      { s with memory := fun a =>
          if 0x50 ≤ a ∧ a < 0x50 + 80 then fonts.getD (a - 0x50) 0 else s.memory a } :=
  install_fonts_loop s 80

/-- C14. After `initialize`, `memory[0x50 + 5*d + i]` is row `i` of the glyph
for digit `d` in `fonts`, for every `d` in 0..15 and `i` in 0..4, and every
memory byte outside `0x50..0x9F` keeps the value it had before. -/
theorem initialize_installs_fonts (s : Chip8) :
    (∀ d i, d < 16 → i < 5 → ( Chip8.initialize s).memory (0x50 + 5 * d + i) = glyphRow d i) ∧
    (∀ a, a < 0x50 ∨ 0x9F < a → ( Chip8.initialize s).memory a = s.memory a) := by
  rw [initialize_eq]
  constructor
  · intro d i hd hi
    have h : 0x50 ≤ 0x50 + 5 * d + i ∧ 0x50 + 5 * d + i < 0x50 + 80 := by omega
    have h2 : 0x50 + 5 * d + i - 0x50 = 5 * d + i := by omega
    simp only [h, and_self, if_true, h2, glyphRow]
  · intro a ha
    have h : ¬ (0x50 ≤ a ∧ a < 0x50 + 80) := by omega
    simp only [h, if_false]

/-- Witness for C14: after `initialize` on the zero machine the addresses
`0x50..0x54` hold `F0 90 90 90 F0`, and address `0x4F` is still 0. -/
theorem initialize_installs_fonts_witness :
    ( Chip8.initialize Chip8.zero).memory 0x50 = 0xF0 ∧
    ( Chip8.initialize Chip8.zero).memory 0x51 = 0x90 ∧
    ( Chip8.initialize Chip8.zero).memory 0x52 = 0x90 ∧
    ( Chip8.initialize Chip8.zero).memory 0x53 = 0x90 ∧
    ( Chip8.initialize Chip8.zero).memory 0x54 = 0xF0 ∧
    ( Chip8.initialize Chip8.zero).memory 0x4F = 0 :=
  ⟨(initialize_installs_fonts Chip8.zero).1 0 0 (by decide) (by decide),
    (initialize_installs_fonts Chip8.zero).1 0 1 (by decide) (by decide),
    (initialize_installs_fonts Chip8.zero).1 0 2 (by decide) (by decide),
    (initialize_installs_fonts Chip8.zero).1 0 3 (by decide) (by decide),
    (initialize_installs_fonts Chip8.zero).1 0 4 (by decide) (by decide),
    (initialize_installs_fonts Chip8.zero).2 0x4F (Or.inl (by decide))⟩

/-- C15, as the code has it. For every starting state `initialize` changes
nothing but `memory[0x50..0x9F]`: the program counter and all other state keep
their values. On the zero machine that `main` starts from, the program counter
therefore stays 0 and everything but the font bytes is zero. -/
theorem initialize_keeps_other_state (s : Chip8) :
    Chip8.initialize s = { s with memory := ( Chip8.initialize s).memory } ∧
    ( Chip8.initialize s).pc = s.pc ∧
    (∀ a, a < 0x50 ∨ 0x9F < a → ( Chip8.initialize s).memory a = s.memory a) ∧
    Chip8.initialize Chip8.zero =
      { Chip8.zero with memory := ( Chip8.initialize Chip8.zero).memory } ∧
    ( Chip8.initialize Chip8.zero).pc = 0 ∧
    (∀ a, a < 0x50 ∨ 0x9F < a → ( Chip8.initialize Chip8.zero).memory a = 0) := by
  have hout : ∀ (c : Chip8) (a : Nat), a < 0x50 ∨ 0x9F < a →
      ( Chip8.initialize c).memory a = c.memory a := by
    intro c a ha
    rw [initialize_eq]
    have h : ¬ (0x50 ≤ a ∧ a < 0x50 + 80) := by omega
    simp only [h, if_false]
  refine ⟨?_, ?_, hout s, ?_, ?_, fun a ha => hout Chip8.zero a ha⟩
  · rw [initialize_eq]
  · rw [initialize_eq]
  · rw [initialize_eq]
  · rw [initialize_eq]
    rfl

/-- C15 as stated fails: after `initialize` on the zero machine the program
counter is 0, not 0x200; and started on a machine with `reg[0] = 7`,
`index = 0x123`, `pc = 0x300`, these values are kept, not zeroed. -/
theorem initialize_keeps_other_state_counterexample :
    ( Chip8.initialize Chip8.zero).pc = 0 ∧ ( Chip8.initialize Chip8.zero).pc ≠ 0x200 ∧
    ( Chip8.initialize { Chip8.withRegisters [7] with index := 0x123, pc := 0x300 }).registers 0
      = 7 ∧
    ( Chip8.initialize { Chip8.withRegisters [7] with index := 0x123, pc := 0x300 }).index
      = 0x123 ∧
    ( Chip8.initialize { Chip8.withRegisters [7] with index := 0x123, pc := 0x300 }).pc
      = 0x300 := by
  simp only [initialize_eq]
  decide

/-- C16, the code on the font lookup. With `reg[0] = d`, FX29 leaves
`index = 5 * d`, which lies below the font region `0x50..0x9F` for every digit:
the five bytes at `index` are all 0, none is the glyph row (every row of
`fonts` is non-zero). The glyph is at `0x50 + index`. For `d = 0`: `index = 0`,
`memory[0] = 0`, the glyph row is `0xF0`. -/
theorem font_lookup_FX29_misses_font_region :
    (fontLookup 0).chip.index = 0 ∧ (fontLookup 0).chip.memory 0 = 0 ∧ glyphRow 0 0 = 0xF0 ∧
    (∀ d i, d < 16 → i < 5 →
      (fontLookup d).isOk = true ∧ (fontLookup d).chip.index = 5 * d ∧
      (fontLookup d).chip.memory ((fontLookup d).chip.index + i) = 0 ∧
      glyphRow d i ≠ 0 ∧
      (fontLookup d).chip.memory (0x50 + (fontLookup d).chip.index + i) = glyphRow d i) := by
  have hrun : ∀ d, d < 16 → fontLookup d = .ok
      { Chip8.initialize Chip8.zero with
        registers := setAt Chip8.zero.registers 0 d
        index := 5 * d } := by
    intro d hd
    unfold fontLookup
    rw [exec_FX29 0 _ 0xF029 (by decide) (by decide)]
    have h1 : (0xF029 / 256 % 16 : Nat) = 0 := by decide
    have h2 : d * 5 % 65536 = 5 * d := by omega
    simp only [h1, setAt, if_true, h2]
  have hall : ∀ d i, d < 16 → i < 5 →
      (fontLookup d).isOk = true ∧ (fontLookup d).chip.index = 5 * d ∧
      (fontLookup d).chip.memory ((fontLookup d).chip.index + i) = 0 ∧
      glyphRow d i ≠ 0 ∧
      (fontLookup d).chip.memory (0x50 + (fontLookup d).chip.index + i) = glyphRow d i := by
    intro d i hd hi
    rw [hrun d hd]
    simp only [Exec.isOk, Exec.chip, initialize_eq, glyphRow]
    have h1 : ¬ (0x50 ≤ 5 * d + i ∧ 5 * d + i < 0x50 + 80) := by omega
    have h2 : 0x50 ≤ 0x50 + 5 * d + i ∧ 0x50 + 5 * d + i < 0x50 + 80 := by omega
    have h3 : 0x50 + 5 * d + i - 0x50 = 5 * d + i := by omega
    simp only [h1, h2, h3, and_self, if_true, if_false, true_and]
    refine ⟨rfl, ?_, trivial⟩
    interval_cases d <;> interval_cases i <;> decide
  refine ⟨(hall 0 0 (by decide) (by decide)).2.1, (hall 0 0 (by decide) (by decide)).2.2.1,
    by decide, hall⟩


/-! ## Waiting for a key -/

theorem find_range_none (p : Nat → Bool) (n : Nat) (h : ∀ k, k < n → p k = false) :
    (List.range n).find? p = none := by
  rw [List.find?_eq_none]
  intro k hk
  rw [List.mem_range] at hk
  simp [h k hk]

theorem find_range_first (p : Nat → Bool) (n k : Nat) (hk : k < n) (hp : p k = true)
    (hmin : ∀ j, j < k → p j = false) : (List.range n).find? p = some k := by
  induction n with
  | zero => omega
  | succ n ih =>
    rw [List.range_succ, List.find?_append]
    by_cases hkn : k < n
    · rw [ih hkn]
      rfl
    · have hkeq : k = n := by omega
      subst hkeq
      rw [find_range_none p k hmin]
      simp [hp]

theorem exec_FX0A (rnd : Nat) (s : Chip8) (op : Nat) (h : op / 4096 % 16 = 15)
    (hlow : op % 256 = 0x0A) :
    s.decodeAndExecuteOpcode rnd op =
      match (List.range keypadSize).find? (fun i => s.keypad i != 0) with
      | some i => .ok { s with registers := setAt s.registers (op / 256 % 16) (i % 256) }
      | none => .ok s := by
  rw [exec_FXNN rnd s op h]
  simp only [execMisc, and_00FF, and_0F00_shift, hlow]
  simp only [Nat.reduceEqDiff, if_true, if_false]

/-- C12. Opcode FX0A returns normally. If no keypad entry is nonzero the
machine is left as it was, program counter included. If some entry is nonzero,
`reg[X]` becomes the smallest `k` in 0..15 with `keypad[k]` nonzero and nothing
else changes: no other register, no memory byte, timer or keypad entry. -/
theorem wait_key_FX0A (rnd : Nat) (s : Chip8) (X : Nat) (hX : X < 16) :
    ((∀ k, k < 16 → s.keypad k = 0) →
      s.decodeAndExecuteOpcode rnd (0xF00A + X * 0x100) = .ok s) ∧
    (∀ k, k < 16 → s.keypad k ≠ 0 → (∀ j, j < k → s.keypad j = 0) →
      s.decodeAndExecuteOpcode rnd (0xF00A + X * 0x100) =
        .ok { s with registers := setAt s.registers X k }) := by
  have hf : (0xF00A + X * 0x100) / 4096 % 16 = 15 := by omega
  have hx : (0xF00A + X * 0x100) / 256 % 16 = X := by omega
  have hn : (0xF00A + X * 0x100) % 256 = 0x0A := by omega
  rw [exec_FX0A rnd s _ hf hn, hx]
  constructor
  · intro hnone
    rw [find_range_none _ keypadSize (fun k hk => by simp [hnone k hk])]
  · intro k hk hne hmin
    rw [find_range_first _ keypadSize k hk (by simp [hne]) (fun j hj => by simp [hmin j hj])]
    have : k % 256 = k := by omega
    simp only [this]

/-- Witness for C12: with only keys 3 and 7 down, 0xF20A stores 3 in `reg[2]`. -/
theorem wait_key_FX0A_witness :
    ({ Chip8.zero with keypad := fun k => if k = 3 ∨ k = 7 then 1 else 0 } :
        Chip8).decodeAndExecuteOpcode 0 (0xF00A + 2 * 0x100) =
      .ok { ({ Chip8.zero with keypad := fun k => if k = 3 ∨ k = 7 then 1 else 0 } : Chip8) with
        registers := setAt Chip8.zero.registers 2 3 } :=
  (wait_key_FX0A 0 { Chip8.zero with keypad := fun k => if k = 3 ∨ k = 7 then 1 else 0 } 2
    (by decide)).2 3 (by decide) (by decide) (by decide)

/-! ## Register block transfer -/

theorem forLoop_range_succ_panic (body : Nat → Chip8 → Exec) (n : Nat) (c t : Chip8)
    (k : PanicKind) (h : forLoop body (List.range n) c = .panic k t) :
    forLoop body (List.range (n + 1)) c = .panic k t := by
  rw [List.range_succ, forLoop_append, h]

theorem store_loop_ok (c : Chip8) (n : Nat) (h : c.index + n ≤ memorySize) :
    forLoop storeRegister (List.range n) c =
      .ok { c with memory := fun a =>
        if c.index ≤ a ∧ a < c.index + n then c.registers (a - c.index) else c.memory a } := by
  have hms : memorySize = 4096 := rfl
  induction n with
  | zero =>
    have : (fun a => if c.index ≤ a ∧ a < c.index + 0 then c.registers (a - c.index)
        else c.memory a) = c.memory := by
      funext a
      have : ¬ (c.index ≤ a ∧ a < c.index + 0) := by omega
      simp only [this, if_false]
    rw [this]
    rfl
  | succ n ih =>
    rw [forLoop_range_succ _ n c _ (ih (by omega))]
    have haddr : (c.index + n) % 65536 = c.index + n := by omega
    have hin : c.index + n < memorySize := by omega
    simp only [storeRegister, haddr, hin, if_true]
    congr 2
    funext a
    simp only [setAt]
    by_cases ha : a = c.index + n
    · subst ha
      have : c.index ≤ c.index + n ∧ c.index + n < c.index + (n + 1) := by omega
      simp only [this, and_self, if_true, Nat.add_sub_cancel_left]
    · by_cases h2 : c.index ≤ a ∧ a < c.index + n
      · have : c.index ≤ a ∧ a < c.index + (n + 1) := by omega
        simp only [ha, h2, this, and_self, if_true, if_false]
      · have : ¬ (c.index ≤ a ∧ a < c.index + (n + 1)) := by omega
        simp only [ha, h2, this, if_false]

theorem store_loop_panic (c : Chip8) (n : Nat) (hidx : c.index < 65536) (hn : 0 < n)
    (h : memorySize < c.index + n) :
    forLoop storeRegister (List.range n) c =
      .panic .indexOutOfRange { c with memory := fun a =>
        if c.index ≤ a ∧ a < memorySize then c.registers (a - c.index) else c.memory a } := by
  have hms : memorySize = 4096 := rfl
  induction n with
  | zero => omega
  | succ n ih =>
    by_cases hfit : c.index + n ≤ memorySize
    · rw [forLoop_range_succ _ n c _ (store_loop_ok c n hfit)]
      have haddr : (c.index + n) % 65536 = c.index + n := by omega
      have hout : ¬ c.index + n < memorySize := by omega
      simp only [storeRegister, haddr, hout, if_false]
      congr 2
      funext a
      have : (c.index ≤ a ∧ a < c.index + n) ↔ (c.index ≤ a ∧ a < memorySize) := by omega
      simp only [this]
    · by_cases hn0 : n = 0
      · subst hn0
        rw [forLoop_range_succ _ 0 c c rfl]
        have haddr : (c.index + 0) % 65536 = c.index := by omega
        have hout : ¬ c.index < memorySize := by omega
        simp only [storeRegister, haddr, hout, if_false]
        have hm : (fun a => if c.index ≤ a ∧ a < memorySize then c.registers (a - c.index)
            else c.memory a) = c.memory := by
          funext a
          have : ¬ (c.index ≤ a ∧ a < memorySize) := by omega
          simp only [this, if_false]
        rw [hm]
      · exact forLoop_range_succ_panic _ n c _ _ (ih (by omega) (by omega))

theorem load_loop_ok (c : Chip8) (n : Nat) (h : c.index + n ≤ memorySize) :
    forLoop loadRegister (List.range n) c =
      .ok { c with registers := fun i =>
        if i < n then c.memory (c.index + i) else c.registers i } := by
  have hms : memorySize = 4096 := rfl
  induction n with
  | zero =>
    have : (fun i => if i < 0 then c.memory (c.index + i) else c.registers i)
        = c.registers := by
      funext i
      simp only [Nat.not_lt_zero, if_false]
    rw [this]
    rfl
  | succ n ih =>
    rw [forLoop_range_succ _ n c _ (ih (by omega))]
    have haddr : (c.index + n) % 65536 = c.index + n := by omega
    have hin : c.index + n < memorySize := by omega
    simp only [loadRegister, haddr, hin, if_true]
    congr 2
    funext i
    simp only [setAt]
    by_cases hi : i = n
    · subst hi
      simp only [if_true, Nat.lt_succ_self]
    · by_cases h2 : i < n
      · have : i < n + 1 := by omega
        simp only [hi, h2, this, if_true, if_false]
      · have : ¬ i < n + 1 := by omega
        simp only [hi, h2, this, if_false]

theorem load_loop_panic (c : Chip8) (n : Nat) (hidx : c.index < 65536) (hn : 0 < n)
    (h : memorySize < c.index + n) :
    forLoop loadRegister (List.range n) c =
      .panic .indexOutOfRange { c with registers := fun i =>
        if c.index + i < memorySize then c.memory (c.index + i) else c.registers i } := by
  have hms : memorySize = 4096 := rfl
  induction n with
  | zero => omega
  | succ n ih =>
    by_cases hfit : c.index + n ≤ memorySize
    · rw [forLoop_range_succ _ n c _ (load_loop_ok c n hfit)]
      have haddr : (c.index + n) % 65536 = c.index + n := by omega
      have hout : ¬ c.index + n < memorySize := by omega
      simp only [loadRegister, haddr, hout, if_false]
      congr 2
      funext i
      have : i < n ↔ c.index + i < memorySize := by omega
      simp only [this]
    · by_cases hn0 : n = 0
      · subst hn0
        rw [forLoop_range_succ _ 0 c c rfl]
        have haddr : (c.index + 0) % 65536 = c.index := by omega
        have hout : ¬ c.index < memorySize := by omega
        simp only [loadRegister, haddr, hout, if_false]
        have hm : (fun i => if c.index + i < memorySize then c.memory (c.index + i)
            else c.registers i) = c.registers := by
          funext i
          have : ¬ c.index + i < memorySize := by omega
          simp only [this, if_false]
        rw [hm]
      · exact forLoop_range_succ_panic _ n c _ _ (ih (by omega) (by omega))

theorem exec_FX55 (rnd : Nat) (s : Chip8) (op : Nat) (h : op / 4096 % 16 = 15)
    (hlow : op % 256 = 0x55) :
    s.decodeAndExecuteOpcode rnd op =
      forLoop storeRegister (List.range (op / 256 % 16 + 1)) s := by
  rw [exec_FXNN rnd s op h]
  simp only [execMisc, and_00FF, and_0F00_shift, hlow]
  simp only [Nat.reduceEqDiff, if_true, if_false]

theorem exec_FX65 (rnd : Nat) (s : Chip8) (op : Nat) (h : op / 4096 % 16 = 15)
    (hlow : op % 256 = 0x65) :
    s.decodeAndExecuteOpcode rnd op =
      forLoop loadRegister (List.range (op / 256 % 16 + 1)) s := by
  rw [exec_FXNN rnd s op h]
  simp only [execMisc, and_00FF, and_0F00_shift, hlow]
  simp only [Nat.reduceEqDiff, if_true, if_false]

/-- C13. With `index + X <= 4095`, opcode FX55 returns normally with
`memory[index + i] = reg[i]` for every `i` in `0..X`; every other memory byte,
every register and `index` are unchanged. FX65 with the same `X` right
afterwards returns normally and leaves all registers at the values they had
before the FX55. -/
theorem store_then_load_FX55_FX65 (rnd1 rnd2 : Nat) (s : Chip8) (X : Nat) (hX : X < 16)
    (hidx : s.index + X ≤ 4095) :
    ∃ t u, s.decodeAndExecuteOpcode rnd1 (0xF055 + X * 0x100) = .ok t ∧
      (∀ i, i ≤ X → t.memory (s.index + i) = s.registers i) ∧
      (∀ a, a < s.index ∨ s.index + X < a → t.memory a = s.memory a) ∧
      t.registers = s.registers ∧ t.index = s.index ∧
      t = { s with memory := t.memory } ∧
      t.decodeAndExecuteOpcode rnd2 (0xF065 + X * 0x100) = .ok u ∧
      u.registers = s.registers := by
  have hms : memorySize = 4096 := rfl
  have hf : (0xF055 + X * 0x100) / 4096 % 16 = 15 := by omega
  have hx : (0xF055 + X * 0x100) / 256 % 16 = X := by omega
  have hn : (0xF055 + X * 0x100) % 256 = 0x55 := by omega
  have hf2 : (0xF065 + X * 0x100) / 4096 % 16 = 15 := by omega
  have hx2 : (0xF065 + X * 0x100) / 256 % 16 = X := by omega
  have hn2 : (0xF065 + X * 0x100) % 256 = 0x65 := by omega
  have e1 := exec_FX55 rnd1 s _ hf hn
  rw [hx, store_loop_ok s (X + 1) (by omega)] at e1
  have e2 := exec_FX65 rnd2 { s with memory := fun a =>
    if s.index ≤ a ∧ a < s.index + (X + 1) then s.registers (a - s.index) else s.memory a }
    _ hf2 hn2
  rw [hx2, load_loop_ok _ (X + 1) (by simp only []; omega)] at e2
  refine ⟨_, _, e1, ?_, ?_, rfl, rfl, rfl, e2, ?_⟩
  · intro i hi
    have : s.index ≤ s.index + i ∧ s.index + i < s.index + (X + 1) := by omega
    simp only [this, and_self, if_true, Nat.add_sub_cancel_left]
  · intro a ha
    have : ¬ (s.index ≤ a ∧ a < s.index + (X + 1)) := by omega
    simp only [this, if_false]
  · funext i
    simp only []
    by_cases hi : i < X + 1
    · have : s.index ≤ s.index + i ∧ s.index + i < s.index + (X + 1) := by omega
      simp only [hi, this, and_self, if_true, Nat.add_sub_cancel_left]
    · simp only [hi, if_false]

/-- Witness for C13: registers 1, 2, 3 stored by 0xF255 at `index = 0x300`
and read back by 0xF265. -/
theorem store_then_load_FX55_FX65_witness :
    ∃ t u, ({ Chip8.withRegisters [1, 2, 3] with index := 0x300 } :
        Chip8).decodeAndExecuteOpcode 0 (0xF055 + 2 * 0x100) = .ok t ∧
      t.memory 0x300 = 1 ∧ t.memory 0x301 = 2 ∧ t.memory 0x302 = 3 ∧
      t.decodeAndExecuteOpcode 0 (0xF065 + 2 * 0x100) = .ok u ∧
      u.registers = (Chip8.withRegisters [1, 2, 3]).registers := by
  obtain ⟨t, u, h1, hm, -, -, -, -, h2, hr⟩ := store_then_load_FX55_FX65 0 0
    { Chip8.withRegisters [1, 2, 3] with index := 0x300 } 2 (by decide) (by decide)
  exact ⟨t, u, h1, hm 0 (by decide), hm 1 (by decide), hm 2 (by decide), h2, hr⟩

/-! ## Memory bounds -/

theorem exec_FX33 (rnd : Nat) (s : Chip8) (op : Nat) (h : op / 4096 % 16 = 15)
    (hlow : op % 256 = 0x33) :
    s.decodeAndExecuteOpcode rnd op =
      if s.index < memorySize then
        if (s.index + 1) % 65536 < memorySize then
          if (s.index + 2) % 65536 < memorySize then
            .ok { s with
              memory :=
                setAt (setAt (setAt s.memory s.index (s.registers (op / 256 % 16) / 100))
                  ((s.index + 1) % 65536) ((s.registers (op / 256 % 16) / 10) % 10))
                  ((s.index + 2) % 65536) ((s.registers (op / 256 % 16) % 100) % 10) }
          else .panic .indexOutOfRange { s with
            memory :=
              setAt (setAt s.memory s.index (s.registers (op / 256 % 16) / 100))
                ((s.index + 1) % 65536) ((s.registers (op / 256 % 16) / 10) % 10) }
        else .panic .indexOutOfRange { s with
          memory := setAt s.memory s.index (s.registers (op / 256 % 16) / 100) }
      else .panic .indexOutOfRange s := by
  rw [exec_FXNN rnd s op h]
  simp only [execMisc, and_00FF, and_0F00_shift, hlow]
  simp only [Nat.reduceEqDiff, if_true, if_false]

/-- C18. For every 16-bit `index`: FX55 and FX65 return normally exactly when
`index + X <= 4095`, FX33 exactly when `index + 2 <= 4095`. Otherwise they end
in the index-out-of-range panic; up to that point FX55 and FX33 have written
no address below `index` (no wrapped address) and none from 4096 on, and FX65
has loaded registers only from addresses `index + i` below 4096. -/
theorem memory_bounds_FX55_FX65_FX33 (rnd : Nat) (s : Chip8) (X : Nat) (hX : X < 16)
    (hidx : s.index < 65536) :
    (((s.decodeAndExecuteOpcode rnd (0xF055 + X * 0x100)).isOk = true ↔ s.index + X ≤ 4095) ∧
      (¬ s.index + X ≤ 4095 →
        ∃ c, s.decodeAndExecuteOpcode rnd (0xF055 + X * 0x100) = .panic .indexOutOfRange c ∧
          ∀ a, a < s.index ∨ 4096 ≤ a → c.memory a = s.memory a)) ∧
    (((s.decodeAndExecuteOpcode rnd (0xF065 + X * 0x100)).isOk = true ↔ s.index + X ≤ 4095) ∧
      (¬ s.index + X ≤ 4095 →
        ∃ c, s.decodeAndExecuteOpcode rnd (0xF065 + X * 0x100) = .panic .indexOutOfRange c ∧
          c.memory = s.memory ∧
          ∀ i, c.registers i = s.registers i ∨
            (s.index + i < 4096 ∧ c.registers i = s.memory (s.index + i)))) ∧
    (((s.decodeAndExecuteOpcode rnd (0xF033 + X * 0x100)).isOk = true ↔ s.index + 2 ≤ 4095) ∧
      (¬ s.index + 2 ≤ 4095 →
        ∃ c, s.decodeAndExecuteOpcode rnd (0xF033 + X * 0x100) = .panic .indexOutOfRange c ∧
          ∀ a, a < s.index ∨ 4096 ≤ a → c.memory a = s.memory a)) := by
  have hms : memorySize = 4096 := rfl
  refine ⟨?_, ?_, ?_⟩
  · have hf : (0xF055 + X * 0x100) / 4096 % 16 = 15 := by omega
    have hx : (0xF055 + X * 0x100) / 256 % 16 = X := by omega
    have hn : (0xF055 + X * 0x100) % 256 = 0x55 := by omega
    rw [exec_FX55 rnd s _ hf hn, hx]
    by_cases hfit : s.index + X ≤ 4095
    · rw [store_loop_ok s (X + 1) (by omega)]
      exact ⟨⟨fun _ => hfit, fun _ => rfl⟩, fun h => absurd hfit h⟩
    · rw [store_loop_panic s (X + 1) hidx (by omega) (by omega)]
      refine ⟨⟨fun h => Bool.noConfusion h, fun h => absurd h hfit⟩, fun _ => ⟨_, rfl, ?_⟩⟩
      intro a ha
      have : ¬ (s.index ≤ a ∧ a < memorySize) := by omega
      simp only [this, if_false]
  · have hf : (0xF065 + X * 0x100) / 4096 % 16 = 15 := by omega
    have hx : (0xF065 + X * 0x100) / 256 % 16 = X := by omega
    have hn : (0xF065 + X * 0x100) % 256 = 0x65 := by omega
    rw [exec_FX65 rnd s _ hf hn, hx]
    by_cases hfit : s.index + X ≤ 4095
    · rw [load_loop_ok s (X + 1) (by omega)]
      exact ⟨⟨fun _ => hfit, fun _ => rfl⟩, fun h => absurd hfit h⟩
    · rw [load_loop_panic s (X + 1) hidx (by omega) (by omega)]
      refine ⟨⟨fun h => Bool.noConfusion h, fun h => absurd h hfit⟩, fun _ => ⟨_, rfl, rfl, ?_⟩⟩
      intro i
      by_cases hi : s.index + i < memorySize
      · right
        simp only [hi, if_true, and_true]
        omega
      · left
        simp only [hi, if_false]
  · have hf : (0xF033 + X * 0x100) / 4096 % 16 = 15 := by omega
    have hn : (0xF033 + X * 0x100) % 256 = 0x33 := by omega
    rw [exec_FX33 rnd s _ hf hn]
    by_cases h0 : s.index < memorySize
    · have e1 : (s.index + 1) % 65536 = s.index + 1 := by omega
      have e2 : (s.index + 2) % 65536 = s.index + 2 := by omega
      simp only [h0, e1, e2, if_true]
      by_cases h1 : s.index + 1 < memorySize
      · by_cases h2 : s.index + 2 < memorySize
        · simp only [h1, h2, if_true]
          exact ⟨⟨fun _ => by omega, fun _ => rfl⟩, fun h => absurd (by omega) h⟩
        · simp only [h1, h2, if_true, if_false]
          refine ⟨⟨fun h => Bool.noConfusion h, fun h => absurd h (by omega)⟩, fun _ => ⟨_, rfl, ?_⟩⟩
          intro a ha
          have ha0 : a ≠ s.index := by omega
          have ha1 : a ≠ s.index + 1 := by omega
          simp only [setAt, ha0, ha1, if_false]
      · simp only [h1, if_false]
        refine ⟨⟨fun h => Bool.noConfusion h, fun h => absurd h (by omega)⟩, fun _ => ⟨_, rfl, ?_⟩⟩
        intro a ha
        have ha0 : a ≠ s.index := by omega
        simp only [setAt, ha0, if_false]
    · simp only [h0, if_false]
      exact ⟨⟨fun h => Bool.noConfusion h, fun h => absurd h (by omega)⟩, fun _ => ⟨_, rfl, fun _ _ => rfl⟩⟩

/-- Witness for C18: with `index = 0xFFFF`, where `index + 1` wraps to 0,
0xF155, 0xF165 and 0xF133 all fail; with `index = 0xFFE` (`index + 1 = 4095`)
0xF155 and 0xF165 succeed and 0xF133 fails. -/
theorem memory_bounds_FX55_FX65_FX33_witness :
    (({ Chip8.zero with index := 0xFFFF } : Chip8).decodeAndExecuteOpcode 0
      (0xF055 + 1 * 0x100)).isOk = false ∧
    (({ Chip8.zero with index := 0xFFFF } : Chip8).decodeAndExecuteOpcode 0
      (0xF065 + 1 * 0x100)).isOk = false ∧
    (({ Chip8.zero with index := 0xFFFF } : Chip8).decodeAndExecuteOpcode 0
      (0xF033 + 1 * 0x100)).isOk = false ∧
    (({ Chip8.zero with index := 0xFFE } : Chip8).decodeAndExecuteOpcode 0
      (0xF055 + 1 * 0x100)).isOk = true ∧
    (({ Chip8.zero with index := 0xFFE } : Chip8).decodeAndExecuteOpcode 0
      (0xF065 + 1 * 0x100)).isOk = true ∧
    (({ Chip8.zero with index := 0xFFE } : Chip8).decodeAndExecuteOpcode 0
      (0xF033 + 1 * 0x100)).isOk = false := by
  have hbig := memory_bounds_FX55_FX65_FX33 0 { Chip8.zero with index := 0xFFFF } 1
    (by decide) (by decide)
  have hfit := memory_bounds_FX55_FX65_FX33 0 { Chip8.zero with index := 0xFFE } 1
    (by decide) (by decide)
  refine ⟨?_, ?_, ?_, hfit.1.1.2 (by decide), hfit.2.1.1.2 (by decide), ?_⟩
  · exact Bool.eq_false_iff.2 (fun h => absurd (hbig.1.1.1 h) (by decide))
  · exact Bool.eq_false_iff.2 (fun h => absurd (hbig.2.1.1.1 h) (by decide))
  · exact Bool.eq_false_iff.2 (fun h => absurd (hbig.2.2.1.1 h) (by decide))
  · exact Bool.eq_false_iff.2 (fun h => absurd (hfit.2.2.1.1 h) (by decide))


/-! ## The stack pointer -/

theorem execAlu_sp (s t : Chip8) (op : Nat) (h : execAlu s op = .ok t) : t.sp = s.sp := by
  have hd : op % 16 < 16 := Nat.mod_lt _ (by decide)
  simp only [execAlu, and_000F] at h
  generalize op % 16 = d at hd h
  interval_cases d <;> simp only [Nat.reduceEqDiff, if_true, if_false, Exec.ok.injEq] at h
  all_goals first
    | (cases h; rfl)
    | cases h

theorem storeRegister_sp (i : Nat) (c c1 : Chip8) (h : storeRegister i c = .ok c1) :
    c1.sp = c.sp := by
  simp only [storeRegister] at h
  split_ifs at h
  cases h
  rfl

theorem loadRegister_sp (i : Nat) (c c1 : Chip8) (h : loadRegister i c = .ok c1) :
    c1.sp = c.sp := by
  simp only [loadRegister] at h
  split_ifs at h
  cases h
  rfl

theorem execMisc_sp (s t : Chip8) (op : Nat) (h : execMisc s op = .ok t) : t.sp = s.sp := by
  simp only [execMisc, and_00FF] at h
  have hcase : op % 256 = 0x07 ∨ op % 256 = 0x0A ∨ op % 256 = 0x15 ∨ op % 256 = 0x18 ∨
      op % 256 = 0x1E ∨ op % 256 = 0x29 ∨ op % 256 = 0x33 ∨ op % 256 = 0x55 ∨
      op % 256 = 0x65 ∨
      (op % 256 ≠ 0x07 ∧ op % 256 ≠ 0x0A ∧ op % 256 ≠ 0x15 ∧ op % 256 ≠ 0x18 ∧
        op % 256 ≠ 0x1E ∧ op % 256 ≠ 0x29 ∧ op % 256 ≠ 0x33 ∧ op % 256 ≠ 0x55 ∧
        op % 256 ≠ 0x65) := by omega
  rcases hcase with h1 | h1 | h1 | h1 | h1 | h1 | h1 | h1 | h1 | ⟨h1, h2, h3, h4, h5, h6, h7, h8, h9⟩
  · rw [h1] at h; simp only [Nat.reduceEqDiff, if_true, if_false] at h
    cases h; rfl
  · rw [h1] at h; simp only [Nat.reduceEqDiff, if_true, if_false] at h
    cases hk : (List.range keypadSize).find? (fun i => s.keypad i != 0) <;>
      rw [hk] at h <;> cases h <;> rfl
  · rw [h1] at h; simp only [Nat.reduceEqDiff, if_true, if_false] at h
    cases h; rfl
  · rw [h1] at h; simp only [Nat.reduceEqDiff, if_true, if_false] at h
    cases h; rfl
  · rw [h1] at h; simp only [Nat.reduceEqDiff, if_true, if_false] at h
    cases h; rfl
  · rw [h1] at h; simp only [Nat.reduceEqDiff, if_true, if_false] at h
    cases h; rfl
  · rw [h1] at h; simp only [Nat.reduceEqDiff, if_true, if_false] at h
    split_ifs at h
    all_goals cases h
    rfl
  · rw [h1] at h; simp only [Nat.reduceEqDiff, if_true, if_false] at h
    exact forLoop_ok_invariant storeRegister (fun c => c.sp = s.sp)
      (fun i c c1 hc hb => (storeRegister_sp i c c1 hb).trans hc) _ s t rfl h
  · rw [h1] at h; simp only [Nat.reduceEqDiff, if_true, if_false] at h
    exact forLoop_ok_invariant loadRegister (fun c => c.sp = s.sp)
      (fun i c c1 hc hb => (loadRegister_sp i c c1 hb).trans hc) _ s t rfl h
  · simp only [h1, h2, h3, h4, h5, h6, h7, h8, h9, if_false] at h
    cases h

theorem drawPixel_sp (x y yline pixel xline : Nat) (c c1 : Chip8)
    (h : drawPixel x y yline pixel xline c = .ok c1) : c1.sp = c.sp := by
  simp only [drawPixel] at h
  split_ifs at h <;> cases h <;> rfl

theorem drawRow_sp (x y yline : Nat) (c c1 : Chip8) (h : drawRow x y yline c = .ok c1) :
    c1.sp = c.sp := by
  simp only [drawRow] at h
  split_ifs at h
  exact forLoop_ok_invariant _ (fun d => d.sp = c.sp)
    (fun i d d1 hd hb => (drawPixel_sp x y yline _ i d d1 hb).trans hd) _ c c1 rfl h

theorem drawSprite_sp (s t : Chip8) (x y height : Nat) (h : s.drawSprite x y height = .ok t) :
    t.sp = s.sp := by
  simp only [Chip8.drawSprite] at h
  cases hb : forLoop (drawRow x y) (List.range height)
      { s with registers := setAt s.registers 0xF 0 } with
  | ok c1 =>
    rw [hb] at h
    cases h
    exact forLoop_ok_invariant _ (fun d => d.sp = s.sp)
      (fun i d d1 hd hd1 => (drawRow_sp x y i d d1 hd1).trans hd) _
      { s with registers := setAt s.registers 0xF 0 } c1 rfl hb
  | panic k c1 =>
    rw [hb] at h
    cases h

/-- C17. From a state with stack pointer at most 16, every opcode that
`decodeAndExecuteOpcode` executes successfully leaves the stack pointer at most
16. 2NNN with stack pointer 16 and 00EE with stack pointer 0 do not return
normally: they end in the index-out-of-range panic with the stack, the program
counter and everything else untouched (after 00EE the stack pointer itself has
already wrapped to 255). -/
theorem stack_pointer_stays_in_range (rnd : Nat) (s t : Chip8) (op NNN : Nat)
    (hsp : s.sp ≤ 16) (hN : NNN < 4096) :
    (s.decodeAndExecuteOpcode rnd op = .ok t → t.sp ≤ 16) ∧
    (s.sp = 16 → s.decodeAndExecuteOpcode rnd (0x2000 + NNN) = .panic .indexOutOfRange s) ∧
    (s.sp = 0 →
      s.decodeAndExecuteOpcode rnd 0x00EE = .panic .indexOutOfRange { s with sp := 255 }) := by
  have hss : stackSize = 16 := rfl
  refine ⟨?_, ?_, ?_⟩
  · intro hok
    have ha : op / 4096 % 16 < 16 := Nat.mod_lt _ (by decide)
    generalize hA : op / 4096 % 16 = a at ha
    interval_cases a
    case «8» =>
      rw [exec_8XYN rnd s op hA] at hok
      rw [execAlu_sp s t op hok]
      exact hsp
    case «15» =>
      rw [exec_FXNN rnd s op hA] at hok
      rw [execMisc_sp s t op hok]
      exact hsp
    case «13» =>
      rw [exec_DXYN rnd s op hA] at hok
      rw [drawSprite_sp s t _ _ _ hok]
      exact hsp
    all_goals
      simp only [Chip8.decodeAndExecuteOpcode, and_F000, and_00FF, hA] at hok
      simp at hok
      try split_ifs at hok
      all_goals
        cases hok
        first
          | exact hsp
          | (simp only []; omega)
  · intro h16
    have hf : (0x2000 + NNN) / 4096 % 16 = 2 := by omega
    have hno : ¬ s.sp < stackSize := by omega
    simp only [Chip8.decodeAndExecuteOpcode, and_F000, hf]
    simp [hno]
  · intro h0
    have h255 : (s.sp + 255) % 256 = 255 := by omega
    simp only [Chip8.decodeAndExecuteOpcode, and_F000, and_00FF]
    simp [h255, hss]

/-- Witness for C17: with stack pointer 16 the call 0x2123 panics and leaves
the machine as it was; with stack pointer 0 the return 0x00EE panics. -/
theorem stack_pointer_stays_in_range_witness :
    ({ Chip8.zero with sp := 16 } : Chip8).decodeAndExecuteOpcode 0 (0x2000 + 0x123) =
      .panic .indexOutOfRange { Chip8.zero with sp := 16 } ∧
    Chip8.zero.decodeAndExecuteOpcode 0 0x00EE =
      .panic .indexOutOfRange { Chip8.zero with sp := 255 } :=
  ⟨(stack_pointer_stays_in_range 0 { Chip8.zero with sp := 16 } Chip8.zero 0 0x123
      (by decide) (by decide)).2.1 rfl,
    (stack_pointer_stays_in_range 0 Chip8.zero Chip8.zero 0 0 (by decide) (by decide)).2.2 rfl⟩

/-! ## The effect of one draw -/

/-- C19. For a sprite that lies inside memory and inside the display buffer,
opcode DXYN returns normally; every cell `x + c + (y + r) * 64` of the sprite
rectangle holds its old value XOR bit `7 - c` of `memory[index + r]`, every
other display cell is unchanged; `reg[0xF]` is 1 if some set sprite bit landed
on a cell that was 1 and 0 otherwise; the redraw flag is set; memory is
unchanged. -/
theorem draw_DXYN_effect (rnd : Nat) (s : Chip8) (X Y N : Nat)
    (hX : X < 16) (hY : Y < 16) (hN : N < 16) (hmem : s.index + N ≤ 4096)
    (hfit : N = 0 ∨ s.registers X + 7 + (s.registers Y + N - 1) * 64 < 2048) :
    ∃ t, s.decodeAndExecuteOpcode rnd (0xD000 + X * 0x100 + Y * 0x10 + N) = .ok t ∧
      (∀ r c, r < N → c < 8 →
        t.display (s.registers X + c + (s.registers Y + r) * 64) =
          s.display (s.registers X + c + (s.registers Y + r) * 64) ^^^
            (if spriteBit s r c = true then 1 else 0)) ∧
      (∀ j, ¬ (∃ r c, r < N ∧ c < 8 ∧ j = s.registers X + c + (s.registers Y + r) * 64) →
        t.display j = s.display j) ∧
      ((∃ r c, r < N ∧ c < 8 ∧ spriteBit s r c = true ∧
          s.display (s.registers X + c + (s.registers Y + r) * 64) = 1) →
        t.registers 0xF = 1) ∧
      (¬ (∃ r c, r < N ∧ c < 8 ∧ spriteBit s r c = true ∧
          s.display (s.registers X + c + (s.registers Y + r) * 64) = 1) →
        t.registers 0xF = 0) ∧
      t.drawFlag = true ∧ t.memory = s.memory := by
  have hf : (0xD000 + X * 0x100 + Y * 0x10 + N) / 4096 % 16 = 13 := by omega
  have hx : (0xD000 + X * 0x100 + Y * 0x10 + N) / 256 % 16 = X := by omega
  have hy : (0xD000 + X * 0x100 + Y * 0x10 + N) / 16 % 16 = Y := by omega
  have hn : (0xD000 + X * 0x100 + Y * 0x10 + N) % 16 = N := by omega
  have hb : ∀ r col, r < N → col < 8 →
      s.registers X + col + (s.registers Y + r) * 64 < displaySize := by
    intro r col hr hc
    have hds : displaySize = 2048 := rfl
    rcases hfit with h0 | h1
    · omega
    · have : (s.registers Y + r) * 64 ≤ (s.registers Y + N - 1) * 64 :=
        Nat.mul_le_mul_right 64 (by omega)
      omega
  obtain ⟨t, ht, e⟩ := drawSprite_effect s (s.registers X) (s.registers Y) N hmem hb
  refine ⟨t, ?_, ?_, ?_, e.flag_set, e.flag_clear, ?_, ?_⟩
  · rw [exec_DXYN rnd s _ hf, hx, hy, hn]
    exact ht
  · intro r c hr hc
    by_cases hbit : spriteBit s r c = true
    · simp only [hbit, if_true]
      exact e.display_hit r c hr hc hbit
    · have hfalse : spriteBit s r c = false := by simpa using hbit
      rw [hfalse]
      simp only [Bool.false_eq_true, if_false, Nat.xor_zero]
      apply e.display_miss
      rintro ⟨r2, c2, hr2, hc2, hbit2, he⟩
      have : r2 = r ∧ c2 = c := by omega
      rw [this.1, this.2] at hbit2
      exact hbit hbit2
  · intro j hj
    apply e.display_miss
    rintro ⟨r, c, hr, hc, -, he⟩
    exact hj ⟨r, c, hr, hc, he⟩
  · rw [e.frame]
  · rw [e.frame]

/-- Witness for C19: the one-row sprite `0xFF` drawn by 0xD011 at `(0, 0)` on
a blank display sets cell 0, leaves cell 8 alone, reports no collision and sets
the redraw flag. -/
theorem draw_DXYN_effect_witness :
    ∃ t, Chip8.withSolidRow.decodeAndExecuteOpcode 0 (0xD000 + 0 * 0x100 + 1 * 0x10 + 1)
        = .ok t ∧
      t.display 0 = 1 ∧ t.display 8 = 0 ∧ t.registers 0xF = 0 ∧ t.drawFlag = true := by
  obtain ⟨t, h, hd, hother, -, hclear, hflag, -⟩ := draw_DXYN_effect 0 Chip8.withSolidRow 0 1 1
    (by decide) (by decide) (by decide) (by decide) (Or.inr (by decide))
  refine ⟨t, h, hd 0 0 (by decide) (by decide), ?_, ?_, hflag⟩
  · apply hother 8
    rintro ⟨r, c, hr, hc, he⟩
    have h0 : Chip8.withSolidRow.registers 0 = 0 := rfl
    have h1 : Chip8.withSolidRow.registers 1 = 0 := rfl
    rw [h0, h1] at he
    omega
  · apply hclear
    rintro ⟨r, c, -, -, -, he⟩
    have hzero : ∀ j, Chip8.withSolidRow.display j = 0 := fun _ => rfl
    rw [hzero] at he
    exact absurd he (by decide)

/-! ## Skips -/

theorem exec_3XNN (rnd : Nat) (s : Chip8) (op : Nat) (h : op / 4096 % 16 = 3) :
    s.decodeAndExecuteOpcode rnd op =
      .ok (if s.registers (op / 256 % 16) = op % 256 then
        { s with pc := (s.pc + 2) % 65536 } else s) := by
  simp only [Chip8.decodeAndExecuteOpcode, and_F000, and_0F00_shift, and_00FF, h, Nat.mod_mod]
  by_cases hc : s.registers (op / 256 % 16) = op % 256 <;> simp [hc]

theorem exec_4XNN (rnd : Nat) (s : Chip8) (op : Nat) (h : op / 4096 % 16 = 4) :
    s.decodeAndExecuteOpcode rnd op =
      .ok (if s.registers (op / 256 % 16) ≠ op % 256 then
        { s with pc := (s.pc + 2) % 65536 } else s) := by
  simp only [Chip8.decodeAndExecuteOpcode, and_F000, and_0F00_shift, and_00FF, h, Nat.mod_mod]
  by_cases hc : s.registers (op / 256 % 16) = op % 256 <;> simp [hc]

theorem exec_5XY0 (rnd : Nat) (s : Chip8) (op : Nat) (h : op / 4096 % 16 = 5) :
    s.decodeAndExecuteOpcode rnd op =
      .ok (if s.registers (op / 256 % 16) = s.registers (op / 16 % 16) then
        { s with pc := (s.pc + 2) % 65536 } else s) := by
  simp only [Chip8.decodeAndExecuteOpcode, and_F000, and_0F00_shift, and_00F0_shift, h]
  by_cases hc : s.registers (op / 256 % 16) = s.registers (op / 16 % 16) <;> simp [hc]

theorem exec_9XY0 (rnd : Nat) (s : Chip8) (op : Nat) (h : op / 4096 % 16 = 9) :
    s.decodeAndExecuteOpcode rnd op =
      .ok (if s.registers (op / 256 % 16) ≠ s.registers (op / 16 % 16) then
        { s with pc := (s.pc + 2) % 65536 } else s) := by
  simp only [Chip8.decodeAndExecuteOpcode, and_F000, and_0F00_shift, and_00F0_shift, h]
  by_cases hc : s.registers (op / 256 % 16) = s.registers (op / 16 % 16) <;> simp [hc]

theorem exec_EX9E (rnd : Nat) (s : Chip8) (op : Nat) (h : op / 4096 % 16 = 14)
    (hlow : op % 256 = 0x9E) (hkey : s.registers (op / 256 % 16) < keypadSize) :
    s.decodeAndExecuteOpcode rnd op =
      .ok (if s.keypad (s.registers (op / 256 % 16)) ≠ 0 then
        { s with pc := (s.pc + 2) % 65536 } else s) := by
  simp only [Chip8.decodeAndExecuteOpcode, and_F000, and_0F00_shift, and_00FF, h, hlow]
  by_cases hc : s.keypad (s.registers (op / 256 % 16)) = 0 <;> simp [hc, hkey]

theorem exec_EXA1 (rnd : Nat) (s : Chip8) (op : Nat) (h : op / 4096 % 16 = 14)
    (hlow : op % 256 = 0xA1) (hkey : s.registers (op / 256 % 16) < keypadSize) :
    s.decodeAndExecuteOpcode rnd op =
      .ok (if s.keypad (s.registers (op / 256 % 16)) = 0 then
        { s with pc := (s.pc + 2) % 65536 } else s) := by
  simp only [Chip8.decodeAndExecuteOpcode, and_F000, and_0F00_shift, and_00FF, h, hlow]
  by_cases hc : s.keypad (s.registers (op / 256 % 16)) = 0 <;> simp [hc, hkey]

/-- C20. Each skip opcode returns normally and changes nothing but the
program counter: the new program counter is the old one plus 2 modulo `2^16`
exactly when the opcode's condition holds, and the old one otherwise (EX9E and
EXA1 for `reg[X] < 16`). Hence, on the same state, exactly one of 3XNN / 4XNN,
of 5XY0 / 9XY0 and of EX9E / EXA1 moves the program counter. -/
theorem skip_opcodes (rnd : Nat) (s : Chip8) (X Y NN : Nat)
    (hX : X < 16) (hY : Y < 16) (hNN : NN < 256) :
    s.decodeAndExecuteOpcode rnd (0x3000 + X * 0x100 + NN) =
      .ok (if s.registers X = NN then { s with pc := (s.pc + 2) % 65536 } else s) ∧
    s.decodeAndExecuteOpcode rnd (0x4000 + X * 0x100 + NN) =
      .ok (if s.registers X ≠ NN then { s with pc := (s.pc + 2) % 65536 } else s) ∧
    s.decodeAndExecuteOpcode rnd (0x5000 + X * 0x100 + Y * 0x10) =
      .ok (if s.registers X = s.registers Y then
        { s with pc := (s.pc + 2) % 65536 } else s) ∧
    s.decodeAndExecuteOpcode rnd (0x9000 + X * 0x100 + Y * 0x10) =
      .ok (if s.registers X ≠ s.registers Y then
        { s with pc := (s.pc + 2) % 65536 } else s) ∧
    (s.registers X < 16 →
      s.decodeAndExecuteOpcode rnd (0xE09E + X * 0x100) =
        .ok (if s.keypad (s.registers X) ≠ 0 then
          { s with pc := (s.pc + 2) % 65536 } else s) ∧
      s.decodeAndExecuteOpcode rnd (0xE0A1 + X * 0x100) =
        .ok (if s.keypad (s.registers X) = 0 then
          { s with pc := (s.pc + 2) % 65536 } else s)) ∧
    (((s.decodeAndExecuteOpcode rnd (0x3000 + X * 0x100 + NN)).chip.pc ≠ s.pc) ↔
      ¬ ((s.decodeAndExecuteOpcode rnd (0x4000 + X * 0x100 + NN)).chip.pc ≠ s.pc)) ∧
    (((s.decodeAndExecuteOpcode rnd (0x5000 + X * 0x100 + Y * 0x10)).chip.pc ≠ s.pc) ↔
      ¬ ((s.decodeAndExecuteOpcode rnd (0x9000 + X * 0x100 + Y * 0x10)).chip.pc ≠ s.pc)) ∧
    (s.registers X < 16 →
      (((s.decodeAndExecuteOpcode rnd (0xE09E + X * 0x100)).chip.pc ≠ s.pc) ↔
        ¬ ((s.decodeAndExecuteOpcode rnd (0xE0A1 + X * 0x100)).chip.pc ≠ s.pc))) := by
  have hmove : (s.pc + 2) % 65536 ≠ s.pc := by omega
  have hx3 : (0x3000 + X * 0x100 + NN) / 256 % 16 = X := by
    clear * - hX hY hNN
    omega
  have hn3 : (0x3000 + X * 0x100 + NN) % 256 = NN := by
    clear * - hX hY hNN
    omega
  have hx4 : (0x4000 + X * 0x100 + NN) / 256 % 16 = X := by
    clear * - hX hY hNN
    omega
  have hn4 : (0x4000 + X * 0x100 + NN) % 256 = NN := by
    clear * - hX hY hNN
    omega
  have hx5 : (0x5000 + X * 0x100 + Y * 0x10) / 256 % 16 = X := by
    clear * - hX hY hNN
    omega
  have hy5 : (0x5000 + X * 0x100 + Y * 0x10) / 16 % 16 = Y := by
    clear * - hX hY hNN
    omega
  have hx9 : (0x9000 + X * 0x100 + Y * 0x10) / 256 % 16 = X := by
    clear * - hX hY hNN
    omega
  have hy9 : (0x9000 + X * 0x100 + Y * 0x10) / 16 % 16 = Y := by
    clear * - hX hY hNN
    omega
  have hxE : (0xE09E + X * 0x100) / 256 % 16 = X := by
    clear * - hX hY hNN
    omega
  have hxA : (0xE0A1 + X * 0x100) / 256 % 16 = X := by
    clear * - hX hY hNN
    omega
  have hf3 : (0x3000 + X * 0x100 + NN) / 4096 % 16 = 3 := by
    clear * - hX hY hNN
    omega
  have hf4 : (0x4000 + X * 0x100 + NN) / 4096 % 16 = 4 := by
    clear * - hX hY hNN
    omega
  have hf5 : (0x5000 + X * 0x100 + Y * 0x10) / 4096 % 16 = 5 := by
    clear * - hX hY hNN
    omega
  have hf9 : (0x9000 + X * 0x100 + Y * 0x10) / 4096 % 16 = 9 := by
    clear * - hX hY hNN
    omega
  have hfE : (0xE09E + X * 0x100) / 4096 % 16 = 14 := by
    clear * - hX hY hNN
    omega
  have hfA : (0xE0A1 + X * 0x100) / 4096 % 16 = 14 := by
    clear * - hX hY hNN
    omega
  have hlE : (0xE09E + X * 0x100) % 256 = 0x9E := by
    clear * - hX hY hNN
    omega
  have hlA : (0xE0A1 + X * 0x100) % 256 = 0xA1 := by
    clear * - hX hY hNN
    omega
  have e3 := exec_3XNN rnd s (0x3000 + X * 0x100 + NN) hf3
  have e4 := exec_4XNN rnd s (0x4000 + X * 0x100 + NN) hf4
  have e5 := exec_5XY0 rnd s (0x5000 + X * 0x100 + Y * 0x10) hf5
  have e9 := exec_9XY0 rnd s (0x9000 + X * 0x100 + Y * 0x10) hf9
  rw [hx3, hn3] at e3
  rw [hx4, hn4] at e4
  rw [hx5, hy5] at e5
  rw [hx9, hy9] at e9
  have eE : s.registers X < 16 → s.decodeAndExecuteOpcode rnd (0xE09E + X * 0x100) =
      .ok (if s.keypad (s.registers X) ≠ 0 then { s with pc := (s.pc + 2) % 65536 } else s) := by
    intro hk
    have h := exec_EX9E rnd s (0xE09E + X * 0x100) hfE hlE (by rw [hxE]; exact hk)
    rw [hxE] at h
    exact h
  have eA : s.registers X < 16 → s.decodeAndExecuteOpcode rnd (0xE0A1 + X * 0x100) =
      .ok (if s.keypad (s.registers X) = 0 then { s with pc := (s.pc + 2) % 65536 } else s) := by
    intro hk
    have h := exec_EXA1 rnd s (0xE0A1 + X * 0x100) hfA hlA (by rw [hxA]; exact hk)
    rw [hxA] at h
    exact h
  refine ⟨e3, e4, e5, e9, fun hk => ⟨eE hk, eA hk⟩, ?_, ?_, ?_⟩
  · rw [e3, e4]
    by_cases hc : s.registers X = NN <;> simp [hc, Exec.chip, hmove]
  · rw [e5, e9]
    by_cases hc : s.registers X = s.registers Y <;> simp [hc, Exec.chip, hmove]
  · intro hk
    rw [eE hk, eA hk]
    by_cases hc : s.keypad (s.registers X) = 0 <;> simp [hc, Exec.chip, hmove]

/-- Witness for C20: on the zero machine `reg[1] = 0`, so 0x3100 moves the
program counter to 2 and 0x4100 leaves it at 0. -/
theorem skip_opcodes_witness :
    (Chip8.zero.decodeAndExecuteOpcode 0 (0x3000 + 1 * 0x100 + 0)).chip.pc = 2 ∧
    (Chip8.zero.decodeAndExecuteOpcode 0 (0x4000 + 1 * 0x100 + 0)).chip.pc = 0 := by
  obtain ⟨h3, h4, -⟩ := skip_opcodes 0 Chip8.zero 1 0 0 (by decide) (by decide) (by decide)
  rw [h3, h4]
  decide


/-! ## Words the dispatch accepts although no row of the table matches -/

theorem exec_0XE0 (rnd : Nat) (s : Chip8) (op : Nat) (h : op / 4096 % 16 = 0)
    (hlow : op % 256 = 0xE0) :
    s.decodeAndExecuteOpcode rnd op =
      .ok { s with
        display := fun i => if i < displaySize then 0 else s.display i
        drawFlag := true } := by
  simp [Chip8.decodeAndExecuteOpcode, and_F000, and_00FF, h, hlow]

theorem exec_0XEE (rnd : Nat) (s : Chip8) (op : Nat) (h : op / 4096 % 16 = 0)
    (hlow : op % 256 = 0xEE) :
    s.decodeAndExecuteOpcode rnd op =
      if (s.sp + 255) % 256 < stackSize then
        .ok { s with sp := (s.sp + 255) % 256, pc := s.stack ((s.sp + 255) % 256) }
      else .panic .indexOutOfRange { s with sp := (s.sp + 255) % 256 } := by
  simp [Chip8.decodeAndExecuteOpcode, and_F000, and_00FF, h, hlow]

/-- C8, as the code has it. A 16-bit word that matches no row of the
instruction table and is not of the form 5XYN, 9XYN, 0XE0 or 0XEE makes
`decodeAndExecuteOpcode` panic with "Unknown opcode", the machine unchanged; a
word that matches a row, or has one of these four forms, never ends in that
panic. The words of the four forms are executed as the row they extend: 5XYN
does what 5XY0 does (skip if `reg[X] == reg[Y]`), 9XYN what 9XY0 does (skip if
`reg[X] != reg[Y]`), 0XE0 what 00E0 does (clear the display, set the redraw
flag) and 0XEE what 00EE does (return). -/
theorem unknown_opcode_dispatch (rnd : Nat) (s : Chip8) (op : Nat) :
    (inInstructionTable op = false ∧ matchesIgnoringUnusedNibble op = false →
      s.decodeAndExecuteOpcode rnd op = .panic .unknownOpcode s) ∧
    (inInstructionTable op = true ∨ matchesIgnoringUnusedNibble op = true →
      (s.decodeAndExecuteOpcode rnd op).isUnknownOpcode = false) ∧
    (∀ X Y N, X < 16 → Y < 16 → N < 16 →
      s.decodeAndExecuteOpcode rnd (0x5000 + X * 0x100 + Y * 0x10 + N) =
        s.decodeAndExecuteOpcode rnd (0x5000 + X * 0x100 + Y * 0x10) ∧
      s.decodeAndExecuteOpcode rnd (0x5000 + X * 0x100 + Y * 0x10 + N) =
        .ok (if s.registers X = s.registers Y then
          { s with pc := (s.pc + 2) % 65536 } else s) ∧
      s.decodeAndExecuteOpcode rnd (0x9000 + X * 0x100 + Y * 0x10 + N) =
        s.decodeAndExecuteOpcode rnd (0x9000 + X * 0x100 + Y * 0x10) ∧
      s.decodeAndExecuteOpcode rnd (0x9000 + X * 0x100 + Y * 0x10 + N) =
        .ok (if s.registers X ≠ s.registers Y then
          { s with pc := (s.pc + 2) % 65536 } else s)) ∧
    (∀ X, X < 16 →
      s.decodeAndExecuteOpcode rnd (X * 0x100 + 0xE0) = s.decodeAndExecuteOpcode rnd 0x00E0 ∧
      s.decodeAndExecuteOpcode rnd (X * 0x100 + 0xE0) =
        .ok { s with
          display := fun i => if i < displaySize then 0 else s.display i
          drawFlag := true } ∧
      s.decodeAndExecuteOpcode rnd (X * 0x100 + 0xEE) = s.decodeAndExecuteOpcode rnd 0x00EE ∧
      s.decodeAndExecuteOpcode rnd (X * 0x100 + 0xEE) =
        (if (s.sp + 255) % 256 < stackSize then
          .ok { s with sp := (s.sp + 255) % 256, pc := s.stack ((s.sp + 255) % 256) }
        else .panic .indexOutOfRange { s with sp := (s.sp + 255) % 256 })) := by
  refine ⟨(unknown_opcode_panic_iff rnd s op).1, (unknown_opcode_panic_iff rnd s op).2, ?_, ?_⟩
  · intro X Y N hX hY hN
    have hf5 : (0x5000 + X * 0x100 + Y * 0x10 + N) / 4096 % 16 = 5 := by omega
    have hx5 : (0x5000 + X * 0x100 + Y * 0x10 + N) / 256 % 16 = X := by omega
    have hy5 : (0x5000 + X * 0x100 + Y * 0x10 + N) / 16 % 16 = Y := by omega
    have hf50 : (0x5000 + X * 0x100 + Y * 0x10) / 4096 % 16 = 5 := by omega
    have hx50 : (0x5000 + X * 0x100 + Y * 0x10) / 256 % 16 = X := by omega
    have hy50 : (0x5000 + X * 0x100 + Y * 0x10) / 16 % 16 = Y := by omega
    have hf9 : (0x9000 + X * 0x100 + Y * 0x10 + N) / 4096 % 16 = 9 := by
      clear * - hX hY hN
      omega
    have hx9 : (0x9000 + X * 0x100 + Y * 0x10 + N) / 256 % 16 = X := by
      clear * - hX hY hN
      omega
    have hy9 : (0x9000 + X * 0x100 + Y * 0x10 + N) / 16 % 16 = Y := by
      clear * - hX hY hN
      omega
    have hf90 : (0x9000 + X * 0x100 + Y * 0x10) / 4096 % 16 = 9 := by
      clear * - hX hY hN
      omega
    have hx90 : (0x9000 + X * 0x100 + Y * 0x10) / 256 % 16 = X := by
      clear * - hX hY hN
      omega
    have hy90 : (0x9000 + X * 0x100 + Y * 0x10) / 16 % 16 = Y := by
      clear * - hX hY hN
      omega
    have e5 := exec_5XY0 rnd s _ hf5
    have e50 := exec_5XY0 rnd s _ hf50
    have e9 := exec_9XY0 rnd s _ hf9
    have e90 := exec_9XY0 rnd s _ hf90
    rw [hx5, hy5] at e5
    rw [hx50, hy50] at e50
    rw [hx9, hy9] at e9
    rw [hx90, hy90] at e90
    exact ⟨e5.trans e50.symm, e5, e9.trans e90.symm, e9⟩
  · intro X hX
    have hfE0 : (X * 0x100 + 0xE0) / 4096 % 16 = 0 := by omega
    have hlE0 : (X * 0x100 + 0xE0) % 256 = 0xE0 := by omega
    have hfEE : (X * 0x100 + 0xEE) / 4096 % 16 = 0 := by omega
    have hlEE : (X * 0x100 + 0xEE) % 256 = 0xEE := by omega
    have a1 := exec_0XE0 rnd s _ hfE0 hlE0
    have a2 := exec_0XE0 rnd s 0x00E0 (by decide) (by decide)
    have b1 := exec_0XEE rnd s _ hfEE hlEE
    have b2 := exec_0XEE rnd s 0x00EE (by decide) (by decide)
    exact ⟨a1.trans a2.symm, a1, b1.trans b2.symm, b1⟩

/-- Instances for C8: 0x8008, 0xE000 and 0xF0FF panic with "Unknown opcode" and
leave the zero machine as it was; 0x5001, 0x9001 and 0x01E0 run exactly as
0x5000, 0x9000 and 0x00E0 do. -/
theorem unknown_opcode_dispatch_witness :
    Chip8.zero.decodeAndExecuteOpcode 0 0x8008 = .panic .unknownOpcode Chip8.zero ∧
    Chip8.zero.decodeAndExecuteOpcode 0 0xE000 = .panic .unknownOpcode Chip8.zero ∧
    Chip8.zero.decodeAndExecuteOpcode 0 0xF0FF = .panic .unknownOpcode Chip8.zero ∧
    Chip8.zero.decodeAndExecuteOpcode 0 (0x5000 + 0 * 0x100 + 0 * 0x10 + 1) =
      Chip8.zero.decodeAndExecuteOpcode 0 (0x5000 + 0 * 0x100 + 0 * 0x10) ∧
    Chip8.zero.decodeAndExecuteOpcode 0 (0x9000 + 0 * 0x100 + 0 * 0x10 + 1) =
      Chip8.zero.decodeAndExecuteOpcode 0 (0x9000 + 0 * 0x100 + 0 * 0x10) ∧
    Chip8.zero.decodeAndExecuteOpcode 0 (1 * 0x100 + 0xE0) =
      Chip8.zero.decodeAndExecuteOpcode 0 0x00E0 :=
  ⟨(unknown_opcode_dispatch 0 Chip8.zero 0x8008).1 (by decide),
    (unknown_opcode_dispatch 0 Chip8.zero 0xE000).1 (by decide),
    (unknown_opcode_dispatch 0 Chip8.zero 0xF0FF).1 (by decide),
    ((unknown_opcode_dispatch 0 Chip8.zero 0).2.2.1 0 0 1 (by decide) (by decide)
      (by decide)).1,
    ((unknown_opcode_dispatch 0 Chip8.zero 0).2.2.1 0 0 1 (by decide) (by decide)
      (by decide)).2.2.1,
    ((unknown_opcode_dispatch 0 Chip8.zero 0).2.2.2 1 (by decide)).1⟩

